import Mathlib

set_option linter.unreachableTactic false
set_option linter.unusedTactic false

/-!
# Verification of the Alchemy detection/transformation core (`src/lib/detector.ts`)

A shallow embedding of the detector and transformer library in Lean 4.

Modelling conventions:
* JavaScript strings are modelled as `List Char` (Unicode scalar values).
* JavaScript numbers are modelled exactly: integer-valued quantities as
  `Nat`/`Int`, fractional arithmetic (color math, printable ratios) as `ℚ`.
  IEEE-754 rounding of JS doubles is not modelled; every quantity the claims
  depend on is far from any binary-rounding boundary.
* Exceptions (`atob`, `JSON.parse`, `decodeURIComponent` throwing inside
  `try`/`catch`) are modelled by `Option`-returning primitives; a `none`
  result corresponds to the `catch` branch of the source.
* JSON numbers are modelled as integers (`Int`).  Fractional JSON literals
  are therefore rejected by the embedded parser; no claim exercises them,
  and the spec's round-trip claim explicitly carves out numeric-literal
  normalization.
* Regular-expression tests from the source are modelled by equivalent
  decidable character-list predicates, written next to the regex they embed.
-/

/-! ## JavaScript character classes and string primitives -/

/-- JS whitespace class `\s` (also the class removed by `String.prototype.trim`):
space, tab, LF, VT, FF, CR, NBSP, and the Unicode space separators. -/
def isJsWs (c : Char) : Bool :=
  let n := c.toNat
  (9 ≤ n && n ≤ 13) || n = 32 || n = 160 || n = 0x1680 ||
  (0x2000 ≤ n && n ≤ 0x200A) || n = 0x2028 || n = 0x2029 ||
  n = 0x202F || n = 0x205F || n = 0x3000 || n = 0xFEFF

/-- `String.prototype.trim`: drop JS whitespace from both ends. -/
def jsTrim (l : List Char) : List Char :=
  ((l.dropWhile isJsWs).reverse.dropWhile isJsWs).reverse

/-- ASCII decimal digit (regex `\d`), by character code. -/
def isDigitCh (c : Char) : Bool := 48 ≤ c.toNat && c.toNat ≤ 57

/-- Hex digit `[0-9A-Fa-f]`, by character code. -/
def isHexCh (c : Char) : Bool :=
  isDigitCh c || (97 ≤ c.toNat && c.toNat ≤ 102) || (65 ≤ c.toNat && c.toNat ≤ 70)

/-- ASCII letter, by character code. -/
def isAlphaCh (c : Char) : Bool :=
  (97 ≤ c.toNat && c.toNat ≤ 122) || (65 ≤ c.toNat && c.toNat ≤ 90)

/-- Numeric value of a hex digit. -/
def hexChVal (c : Char) : Nat :=
  if isDigitCh c then c.toNat - 48
  else if 97 ≤ c.toNat && c.toNat ≤ 102 then c.toNat - 87
  else if 65 ≤ c.toNat && c.toNat ≤ 70 then c.toNat - 55
  else 0

/-- Value of an ASCII digit string (`parseInt(s, 10)` on an all-digit string). -/
def digitsVal (l : List Char) : Nat :=
  l.foldl (fun acc c => acc * 10 + (c.toNat - 48)) 0

/-- Value of a hex digit string (`parseInt` with base 16). -/
def hexVal (l : List Char) : Nat :=
  l.foldl (fun acc c => acc * 16 + hexChVal c) 0

/-- Value of a binary digit string (`parseInt(s, 2)`). -/
def binVal (l : List Char) : Nat :=
  l.foldl (fun acc c => acc * 2 + (c.toNat - 48)) 0

/-- Value of an octal digit string (`parseInt(s, 8)`). -/
def octVal (l : List Char) : Nat :=
  l.foldl (fun acc c => acc * 8 + (c.toNat - 48)) 0

/-- JS `String.prototype.split` with a single-character separator:
always returns at least one (possibly empty) piece. -/
def splitOnCh (sep : Char) : List Char → List (List Char)
  | [] => [[]]
  | c :: cs =>
    if c = sep then [] :: splitOnCh sep cs
    else
      match splitOnCh sep cs with
      | p :: ps => (c :: p) :: ps
      | [] => [[c]]

/-- Number of occurrences of a character (`(s.match(/c/g) || []).length`). -/
def countCh (c : Char) (l : List Char) : Nat := (l.filter (· = c)).length

theorem splitOnCh_ne_nil (sep : Char) (l : List Char) : splitOnCh sep l ≠ [] := by
  induction l with
  | nil => simp [splitOnCh]
  | cons c cs ih =>
    simp only [splitOnCh]
    split
    · simp
    · cases h : splitOnCh sep cs <;> simp

theorem splitOnCh_length (sep : Char) (l : List Char) :
    (splitOnCh sep l).length = countCh sep l + 1 := by
  induction l with
  | nil => simp [splitOnCh, countCh]
  | cons c cs ih =>
    simp only [splitOnCh, countCh, List.filter]
    by_cases h : c = sep
    · simp only [if_pos h, List.length_cons]
      have : (c = sep) = True := by simp [h]
      simp [countCh] at ih
      simp [h, ih]
    · simp only [if_neg h]
      have hd : (decide (c = sep)) = false := by simp [h]
      rw [hd]
      cases hs : splitOnCh sep cs with
      | nil => exact absurd hs (splitOnCh_ne_nil sep cs)
      | cons p ps =>
        simp only [List.length_cons]
        rw [hs] at ih
        simp only [List.length_cons] at ih
        simpa [countCh] using ih

/-- If a character list splits into `n+1` pieces on `sep` with `n > 0`,
the separator occurs in it. -/
theorem mem_of_splitOnCh_three (sep : Char) (l p0 p1 p2 : List Char)
    (h : splitOnCh sep l = [p0, p1, p2]) : sep ∈ l := by
  have hlen := splitOnCh_length sep l
  rw [h] at hlen
  simp only [List.length_cons, List.length_nil] at hlen
  have hc : countCh sep l = 2 := by omega
  by_contra hmem
  have : countCh sep l = 0 := by
    simp only [countCh, List.length_eq_zero, List.filter_eq_nil_iff]
    intro a ha
    simp only [decide_eq_true_eq]
    rintro rfl
    exact hmem ha
  omega

/-! ## Char code lemmas -/

theorem charOfNat_toNat (c : Char) (h : c.toNat < 55296) : Char.ofNat c.toNat = c := by
  unfold Char.ofNat
  split
  · apply Char.ext
    simp only [Char.ofNatAux]
    apply UInt32.ext
    simp only [UInt32.ofNat', Char.toNat, UInt32.toNat] at *
    exact BitVec.toNat_ofNatLt _ _
  · rename_i hn
    exact absurd (Or.inl (by simpa [Char.toNat] using h)) hn

theorem charToNat_ofNat (n : Nat) (h : n < 55296) : (Char.ofNat n).toNat = n := by
  unfold Char.ofNat
  split
  · simp only [Char.ofNatAux, Char.toNat, UInt32.toNat, UInt32.ofNat']
    exact BitVec.toNat_ofNatLt _ _
  · rename_i hn
    exact absurd (Or.inl h) hn

theorem char_eq_toNat (c d : Char) (h : c = d) : c.toNat = d.toNat := by rw [h]

/-- Two chars with different codes are different (contrapositive form used
to discharge if-then-else branches). -/
theorem char_ne_of_toNat_ne {c d : Char} (h : c.toNat ≠ d.toNat) : c ≠ d :=
  fun he => h (char_eq_toNat c d he)

/-! ## JSON: values, parser, printers

`JSON.parse` / `JSON.stringify` are modelled over an inductive `J` of JSON
values.  Numbers are integers (see the header comment); object members keep
their textual order, duplicates included. -/

inductive J where
  | jnull : J
  | jbool (b : Bool) : J
  | jnum (n : Int) : J
  | jstr (s : List Char) : J
  | jarr (elems : List J) : J
  | jobj (mems : List (List Char × J)) : J

/-- JSON insignificant whitespace (RFC 8259): space, tab, LF, CR. -/
def isJsonWs (c : Char) : Bool :=
  c.toNat = 32 || c.toNat = 9 || c.toNat = 10 || c.toNat = 13

/-- Skip JSON whitespace. -/
def skipWs (l : List Char) : List Char := l.dropWhile isJsonWs

theorem skipWs_allWs_append {pre : List Char} (t : List Char)
    (h : pre.all isJsonWs = true) : skipWs (pre ++ t) = skipWs t := by
  induction pre with
  | nil => rfl
  | cons c cs ih =>
    simp only [List.all_cons, Bool.and_eq_true] at h
    simp only [skipWs, List.cons_append, List.dropWhile_cons, h.1, if_true]
    exact ih h.2

theorem skipWs_cons_neg {c : Char} (t : List Char) (h : isJsonWs c = false) :
    skipWs (c :: t) = c :: t := by
  simp [skipWs, List.dropWhile_cons, h]

theorem skipWs_nil : skipWs [] = [] := rfl

/-- Decimal digit character of `k ≤ 9`. -/
def digitCh (k : Nat) : Char := Char.ofNat (k + 48)

/-- Lower-case hex digit character of `k ≤ 15`. -/
def hexDigitCh (k : Nat) : Char :=
  if k < 10 then Char.ofNat (k + 48) else Char.ofNat (k + 87)

/-- Decimal digits of a natural number, most significant first (fuel-based so
that the kernel can evaluate it). -/
def natDigitsAux : Nat → Nat → List Char → List Char
  | 0, _, acc => acc
  | f + 1, n, acc =>
    if n < 10 then digitCh n :: acc
    else natDigitsAux f (n / 10) (digitCh (n % 10) :: acc)

def natDigits (n : Nat) : List Char := natDigitsAux (n + 1) n []

/-- Decimal representation of an integer (JS number-to-string on integers). -/
def intChars (n : Int) : List Char :=
  if n < 0 then '-' :: natDigits n.natAbs else natDigits n.toNat

/-- One-character JSON escapes (after a backslash). -/
def jsonEscChar : Char → Option Char
  | '"' => some '"'
  | '\\' => some '\\'
  | '/' => some '/'
  | 'b' => some (Char.ofNat 8)
  | 'f' => some (Char.ofNat 12)
  | 'n' => some (Char.ofNat 10)
  | 'r' => some (Char.ofNat 13)
  | 't' => some (Char.ofNat 9)
  | _ => none

/-- `JSON.stringify` escaping of a single character: quote, backslash, the
named control escapes, `\u00XX` for other controls, everything else raw. -/
def escChar (c : Char) : List Char :=
  if c = '"' then ['\\', '"']
  else if c = '\\' then ['\\', '\\']
  else if c.toNat = 8 then ['\\', 'b']
  else if c.toNat = 9 then ['\\', 't']
  else if c.toNat = 10 then ['\\', 'n']
  else if c.toNat = 12 then ['\\', 'f']
  else if c.toNat = 13 then ['\\', 'r']
  else if c.toNat < 32 then
    ['\\', 'u', '0', '0', hexDigitCh (c.toNat / 16), hexDigitCh (c.toNat % 16)]
  else [c]

def escStr : List Char → List Char
  | [] => []
  | c :: cs => escChar c ++ escStr cs

/-- Code-unit value of a `\uXXXX` escape. -/
def uVal (h1 h2 h3 h4 : Char) : Nat :=
  ((hexChVal h1 * 16 + hexChVal h2) * 16 + hexChVal h3) * 16 + hexChVal h4

/-- JSON string-literal body parser (after the opening quote): returns the
decoded characters and the input following the closing quote.  Surrogate
pairs in `\u` escapes are combined; lone surrogates are rejected (Lean
`Char` holds Unicode scalar values, see the header). -/
def parseJStr : Nat → List Char → Option (List Char × List Char)
  | 0, _ => none
  | _, [] => none
  | fuel + 1, c :: r =>
    if c = '"' then some ([], r)
    else if c = '\\' then
      match r with
      | [] => none
      | e :: r2 =>
        if e = 'u' then
          match r2 with
          | h1 :: h2 :: h3 :: h4 :: r3 =>
            if (isHexCh h1 && isHexCh h2 && isHexCh h3 && isHexCh h4) = true then
              let n := uVal h1 h2 h3 h4
              if 0xD800 ≤ n ∧ n ≤ 0xDBFF then
                match r3 with
                | b1 :: u1 :: g1 :: g2 :: g3 :: g4 :: r4 =>
                  if b1 = '\\' ∧ u1 = 'u' ∧
                      (isHexCh g1 && isHexCh g2 && isHexCh g3 && isHexCh g4) = true then
                    let m := uVal g1 g2 g3 g4
                    if 0xDC00 ≤ m ∧ m ≤ 0xDFFF then
                      (parseJStr fuel r4).map fun pr =>
                        (Char.ofNat (0x10000 + (n - 0xD800) * 0x400 + (m - 0xDC00)) :: pr.1, pr.2)
                    else none
                  else none
                | _ => none
              else if 0xDC00 ≤ n ∧ n ≤ 0xDFFF then none
              else (parseJStr fuel r3).map fun pr => (Char.ofNat n :: pr.1, pr.2)
            else none
          | _ => none
        else
          match jsonEscChar e with
          | some ec => (parseJStr fuel r2).map fun pr => (ec :: pr.1, pr.2)
          | none => none
    else if c.toNat < 32 then none
    else (parseJStr fuel r).map fun pr => (c :: pr.1, pr.2)

/-- JSON number-token parser (integer part only; see the header note on
JSON numbers).  A leading `0` is only valid alone, per the JSON grammar. -/
def parseJNat : List Char → Option (Nat × List Char)
  | [] => none
  | c :: r =>
    if c = '0' then some (0, r)
    else
      let ds := (c :: r).takeWhile isDigitCh
      if ds = [] then none
      else some (digitsVal ds, (c :: r).dropWhile isDigitCh)

/-- Parser modes: a plain value, or the element/member loop of a partially
parsed array/object (accumulator in textual order). -/
inductive PMode where
  | val : PMode
  | arrCont (acc : List J) : PMode
  | objCont (acc : List (List Char × J)) : PMode

/-- Fuel-indexed JSON parser: `parseJV f .val s` parses one JSON value from
`s` (leading whitespace allowed) and returns it with the remaining input. -/
def parseJV : Nat → PMode → List Char → Option (J × List Char)
  | 0, _, _ => none
  | fuel + 1, .val, s0 =>
    match skipWs s0 with
    | [] => none
    | c :: r =>
      if c = '{' then
        if (skipWs r).head? = some '}' then some (.jobj [], (skipWs r).tail)
        else parseJV fuel (.objCont []) r
      else if c = '[' then
        if (skipWs r).head? = some ']' then some (.jarr [], (skipWs r).tail)
        else parseJV fuel (.arrCont []) r
      else if c = '"' then
        (parseJStr (r.length + 1) r).map fun pr => (.jstr pr.1, pr.2)
      else if c = 'n' then
        if r.take 3 = ['u', 'l', 'l'] then some (.jnull, r.drop 3) else none
      else if c = 't' then
        if r.take 3 = ['r', 'u', 'e'] then some (.jbool true, r.drop 3) else none
      else if c = 'f' then
        if r.take 4 = ['a', 'l', 's', 'e'] then some (.jbool false, r.drop 4) else none
      else if c = '-' then
        (parseJNat r).map fun pr => (.jnum (-(pr.1 : Int)), pr.2)
      else if isDigitCh c then
        (parseJNat (c :: r)).map fun pr => (.jnum (pr.1 : Int), pr.2)
      else none
  | fuel + 1, .arrCont acc, s =>
    match parseJV fuel .val s with
    | none => none
    | some (v, r) =>
      let t := skipWs r
      if t.head? = some ',' then parseJV fuel (.arrCont (acc ++ [v])) t.tail
      else if t.head? = some ']' then some (.jarr (acc ++ [v]), t.tail)
      else none
  | fuel + 1, .objCont acc, s =>
    let t := skipWs s
    if t.head? = some '"' then
      match parseJStr (t.tail.length + 1) t.tail with
      | none => none
      | some (k, r2) =>
        let t2 := skipWs r2
        if t2.head? = some ':' then
          match parseJV fuel .val t2.tail with
          | none => none
          | some (v, r4) =>
            let t3 := skipWs r4
            if t3.head? = some ',' then parseJV fuel (.objCont (acc ++ [(k, v)])) t3.tail
            else if t3.head? = some '}' then some (.jobj (acc ++ [(k, v)]), t3.tail)
            else none
        else none
    else none

/-- Model of `JSON.parse`: parse one value, allow only trailing whitespace. -/
def jsonParse (s : List Char) : Option J :=
  match parseJV (s.length + 1) .val s with
  | some (v, r) => if skipWs r = [] then some v else none
  | none => none

/-- `\n` plus the indentation of items one level below `ind` (pretty mode),
nothing in minified mode. -/
def itemPre (pretty : Bool) (ind : Nat) : List Char :=
  if pretty then Char.ofNat 10 :: List.replicate (ind + 2) ' ' else []

/-- `\n` plus the indentation of the closing bracket (pretty mode). -/
def closePre (pretty : Bool) (ind : Nat) : List Char :=
  if pretty then Char.ofNat 10 :: List.replicate ind ' ' else []

/-- Key/value separator: `": "` pretty, `":"` minified. -/
def colonStr (pretty : Bool) : List Char :=
  if pretty then [':', ' '] else [':']

mutual
/-- `JSON.stringify(x)` (`pretty = false`) and `JSON.stringify(x, null, 2)`
(`pretty = true`, `ind` = current indentation). -/
def printJ (pretty : Bool) (ind : Nat) : J → List Char
  | .jnull => ['n', 'u', 'l', 'l']
  | .jbool true => ['t', 'r', 'u', 'e']
  | .jbool false => ['f', 'a', 'l', 's', 'e']
  | .jnum n => intChars n
  | .jstr s => '"' :: (escStr s ++ ['"'])
  | .jarr [] => ['[', ']']
  | .jarr (e :: es) =>
    '[' :: (itemPre pretty ind ++ printJ pretty (ind + 2) e ++ printArrTail pretty ind es
      ++ closePre pretty ind ++ [']'])
  | .jobj [] => ['{', '}']
  | .jobj (m :: ms) =>
    '{' :: (itemPre pretty ind ++ printMem pretty ind m ++ printObjTail pretty ind ms
      ++ closePre pretty ind ++ ['}'])

def printMem (pretty : Bool) (ind : Nat) : List Char × J → List Char
  | (k, v) => '"' :: (escStr k ++ ['"'] ++ colonStr pretty ++ printJ pretty (ind + 2) v)

def printArrTail (pretty : Bool) (ind : Nat) : List J → List Char
  | [] => []
  | e :: es => ',' :: (itemPre pretty ind ++ printJ pretty (ind + 2) e ++ printArrTail pretty ind es)

def printObjTail (pretty : Bool) (ind : Nat) : List (List Char × J) → List Char
  | [] => []
  | m :: ms => ',' :: (itemPre pretty ind ++ printMem pretty ind m ++ printObjTail pretty ind ms)
end

mutual
/-- Node count of a JSON value, used as the parser-fuel measure. -/
def sizeJ : J → Nat
  | .jarr l => 1 + sizeL l
  | .jobj m => 1 + sizeM m
  | _ => 1

def sizeL : List J → Nat
  | [] => 0
  | e :: es => 1 + sizeJ e + sizeL es

def sizeM : List (List Char × J) → Nat
  | [] => 0
  | m :: ms => 1 + sizeJ m.2 + sizeM ms
end

/-! ## Round-trip lemmas: numbers -/

/-- The input after printed material must not continue with a digit
(delimiter condition for the greedy number token). -/
def NDH (rest : List Char) : Prop :=
  ∀ c, rest.head? = some c → isDigitCh c = false

theorem NDH_nil : NDH [] := by intro c h; simp at h

theorem takeWhile_append_all {p : Char → Bool} {l r : List Char}
    (hl : ∀ c ∈ l, p c = true) (hr : ∀ c, r.head? = some c → p c = false) :
    (l ++ r).takeWhile p = l ∧ (l ++ r).dropWhile p = r := by
  induction l with
  | nil =>
    simp only [List.nil_append]
    cases r with
    | nil => simp
    | cons c cs =>
      have := hr c (by simp)
      simp [List.takeWhile_cons, List.dropWhile_cons, this]
  | cons c cs ih =>
    have hc := hl c (by simp)
    have ih2 := ih (fun d hd => hl d (by simp [hd]))
    simp [List.takeWhile_cons, List.dropWhile_cons, hc, ih2.1, ih2.2]

theorem digitCh_toNat {k : Nat} (h : k ≤ 9) : (digitCh k).toNat = k + 48 := by
  simp only [digitCh]
  exact charToNat_ofNat _ (by omega)

theorem isDigitCh_digitCh {k : Nat} (h : k ≤ 9) : isDigitCh (digitCh k) = true := by
  simp only [isDigitCh, digitCh_toNat h, Bool.and_eq_true, decide_eq_true_eq]
  omega

theorem digitsVal_append (a b : List Char) :
    digitsVal (a ++ b) = b.foldl (fun acc c => acc * 10 + (c.toNat - 48)) (digitsVal a) := by
  simp [digitsVal, List.foldl_append]

theorem natDigitsAux_spec : ∀ f n acc, n < f →
    ∃ ds, natDigitsAux f n acc = ds ++ acc ∧ ds ≠ [] ∧
      (∀ c ∈ ds, isDigitCh c = true) ∧ digitsVal ds = n ∧
      (∀ c, ds.head? = some c → 1 ≤ n → c ≠ '0') := by
  intro f
  induction f with
  | zero => intro n acc h; omega
  | succ f ih =>
    intro n acc h
    by_cases hn : n < 10
    · refine ⟨[digitCh n], ?_, by simp, ?_, ?_, ?_⟩
      · simp [natDigitsAux, hn]
      · intro c hc
        simp at hc
        subst hc
        exact isDigitCh_digitCh (by omega)
      · simp [digitsVal, digitCh_toNat (by omega : n ≤ 9)]
      · intro c hc h1
        simp at hc
        subst hc
        apply char_ne_of_toNat_ne
        rw [digitCh_toNat (by omega : n ≤ 9)]
        have : ('0').toNat = 48 := by decide
        omega
    · have hrec : n / 10 < f := by omega
      obtain ⟨ds, heq, hne, hdig, hval, hhd⟩ := ih (n / 10) (digitCh (n % 10) :: acc) hrec
      refine ⟨ds ++ [digitCh (n % 10)], ?_, by simp [hne], ?_, ?_, ?_⟩
      · simp only [natDigitsAux, if_neg hn, heq, List.append_assoc, List.cons_append,
          List.nil_append]
      · intro c hc
        rcases List.mem_append.1 hc with h1 | h1
        · exact hdig c h1
        · simp at h1
          subst h1
          exact isDigitCh_digitCh (by omega)
      · rw [digitsVal_append]
        simp only [List.foldl_cons, List.foldl_nil, hval]
        rw [digitCh_toNat (by omega : n % 10 ≤ 9)]
        omega
      · intro c hc h1
        cases ds with
        | nil => exact absurd rfl hne
        | cons d ds' =>
          simp at hc
          subst hc
          exact hhd d (by simp) (by omega)

theorem natDigits_spec (n : Nat) :
    ∃ ds, natDigits n = ds ∧ ds ≠ [] ∧ (∀ c ∈ ds, isDigitCh c = true) ∧
      digitsVal ds = n ∧ (∀ c, ds.head? = some c → 1 ≤ n → c ≠ '0') := by
  obtain ⟨ds, heq, h⟩ := natDigitsAux_spec (n + 1) n [] (by omega)
  exact ⟨ds, by simpa [natDigits] using heq, h⟩

theorem parseJNat_natDigits (n : Nat) (rest : List Char) (hr : NDH rest) :
    parseJNat (natDigits n ++ rest) = some (n, rest) := by
  by_cases h0 : n = 0
  · subst h0
    have h1 : natDigits 0 = ['0'] := by decide
    rw [h1]
    simp [parseJNat]
  · obtain ⟨ds, heq, hne, hdig, hval, hhd⟩ := natDigits_spec n
    rw [heq]
    cases ds with
    | nil => exact absurd rfl hne
    | cons d ds' =>
      have hd0 : d ≠ '0' := hhd d (by simp) (by omega)
      simp only [List.cons_append, parseJNat, if_neg hd0]
      have htk := takeWhile_append_all (p := isDigitCh) (l := d :: ds') (r := rest) hdig hr
      simp only [List.cons_append] at htk
      rw [htk.1, htk.2]
      simp [hne, hval]

/-! ## Round-trip lemmas: string literals -/

theorem hexDigitCh_toNat {k : Nat} (h : k < 16) :
    (hexDigitCh k).toNat = if k < 10 then k + 48 else k + 87 := by
  simp only [hexDigitCh]
  split
  · exact charToNat_ofNat _ (by omega)
  · exact charToNat_ofNat _ (by omega)

theorem isHexCh_hexDigitCh {k : Nat} (h : k < 16) : isHexCh (hexDigitCh k) = true := by
  simp only [isHexCh, isDigitCh, hexDigitCh_toNat h, Bool.or_eq_true, Bool.and_eq_true,
    decide_eq_true_eq]
  split <;> omega

theorem hexChVal_hexDigitCh {k : Nat} (h : k < 16) : hexChVal (hexDigitCh k) = k := by
  simp only [hexChVal, isDigitCh, hexDigitCh_toNat h]
  split <;> rename_i h10
  · simp only [Bool.and_eq_true, decide_eq_true_eq]
    split <;> omega
  · simp only [Bool.and_eq_true, decide_eq_true_eq]
    split <;> rename_i h2
    · omega
    · split <;> omega

theorem parseJStr_quote (f : Nat) (r : List Char) :
    parseJStr (f + 1) ('"' :: r) = some ([], r) := rfl

theorem parseJStr_escQuote (f : Nat) (r : List Char) :
    parseJStr (f + 1) ('\\' :: '"' :: r) =
      (parseJStr f r).map fun pr => ('"' :: pr.1, pr.2) := rfl

theorem parseJStr_escBs (f : Nat) (r : List Char) :
    parseJStr (f + 1) ('\\' :: '\\' :: r) =
      (parseJStr f r).map fun pr => ('\\' :: pr.1, pr.2) := rfl

theorem parseJStr_escB (f : Nat) (r : List Char) :
    parseJStr (f + 1) ('\\' :: 'b' :: r) =
      (parseJStr f r).map fun pr => (Char.ofNat 8 :: pr.1, pr.2) := rfl

theorem parseJStr_escT (f : Nat) (r : List Char) :
    parseJStr (f + 1) ('\\' :: 't' :: r) =
      (parseJStr f r).map fun pr => (Char.ofNat 9 :: pr.1, pr.2) := rfl

theorem parseJStr_escN (f : Nat) (r : List Char) :
    parseJStr (f + 1) ('\\' :: 'n' :: r) =
      (parseJStr f r).map fun pr => (Char.ofNat 10 :: pr.1, pr.2) := rfl

theorem parseJStr_escF (f : Nat) (r : List Char) :
    parseJStr (f + 1) ('\\' :: 'f' :: r) =
      (parseJStr f r).map fun pr => (Char.ofNat 12 :: pr.1, pr.2) := rfl

theorem parseJStr_escR (f : Nat) (r : List Char) :
    parseJStr (f + 1) ('\\' :: 'r' :: r) =
      (parseJStr f r).map fun pr => (Char.ofNat 13 :: pr.1, pr.2) := rfl

theorem parseJStr_raw (f : Nat) (c : Char) (r : List Char) (h1 : ¬ c = '"')
    (h2 : ¬ c = '\\') (h3 : ¬ c.toNat < 32) :
    parseJStr (f + 1) (c :: r) = (parseJStr f r).map fun pr => (c :: pr.1, pr.2) := by
  simp only [parseJStr, if_neg h1, if_neg h2, if_neg h3]

theorem parseJStr_u00 (f : Nat) (d1 d2 : Char) (r : List Char) (h1 : isHexCh d1 = true)
    (h2 : isHexCh d2 = true) (hlt : uVal '0' '0' d1 d2 < 32) :
    parseJStr (f + 1) ('\\' :: 'u' :: '0' :: '0' :: d1 :: d2 :: r) =
      (parseJStr f r).map fun pr => (Char.ofNat (uVal '0' '0' d1 d2) :: pr.1, pr.2) := by
  simp only [parseJStr, if_neg (by decide : ¬('\\' : Char) = '"'), if_pos rfl, if_pos rfl,
    (by decide : isHexCh '0' = true), h1, h2, Bool.and_self, Bool.and_true, Bool.true_and,
    if_pos rfl, eq_self_iff_true, if_true]
  rw [if_neg (by omega : ¬(55296 ≤ uVal '0' '0' d1 d2 ∧ uVal '0' '0' d1 d2 ≤ 56319)),
    if_neg (by omega : ¬(56320 ≤ uVal '0' '0' d1 d2 ∧ uVal '0' '0' d1 d2 ≤ 57343))]

theorem parseJStr_escStr (s : List Char) : ∀ (f : Nat) (rest : List Char), s.length < f →
    parseJStr f (escStr s ++ '"' :: rest) = some (s, rest) := by
  induction s with
  | nil =>
    intro f rest hf
    cases f with
    | zero => omega
    | succ f => simp [escStr, parseJStr_quote]
  | cons c cs ih =>
    intro f rest hf
    cases f with
    | zero => simp at hf
    | succ f =>
    have hcs : cs.length < f := by simp at hf; omega
    have ihf := ih f rest hcs
    show parseJStr (f + 1) ((escChar c ++ escStr cs) ++ '"' :: rest) = some (c :: cs, rest)
    rw [List.append_assoc]
    by_cases h1 : c = '"'
    · subst h1
      simp only [escChar, if_pos rfl, eq_self_iff_true, if_true, List.cons_append,
        List.nil_append, parseJStr_escQuote, ihf, Option.map_some']
    by_cases h2 : c = '\\'
    · subst h2
      simp only [escChar, if_neg (by decide : ¬('\\' : Char) = '"'), if_pos rfl,
        eq_self_iff_true, if_true, List.cons_append, List.nil_append, parseJStr_escBs,
        ihf, Option.map_some']
    by_cases h3 : c.toNat = 8
    · simp only [escChar, if_neg h1, if_neg h2, if_pos h3, List.cons_append, List.nil_append,
        parseJStr_escB, ihf, Option.map_some']
      rw [show Char.ofNat 8 = c from h3 ▸ charOfNat_toNat c (by omega)]
    by_cases h4 : c.toNat = 9
    · simp only [escChar, if_neg h1, if_neg h2, if_neg h3, if_pos h4, List.cons_append,
        List.nil_append, parseJStr_escT, ihf, Option.map_some']
      rw [show Char.ofNat 9 = c from h4 ▸ charOfNat_toNat c (by omega)]
    by_cases h5 : c.toNat = 10
    · simp only [escChar, if_neg h1, if_neg h2, if_neg h3, if_neg h4, if_pos h5,
        List.cons_append, List.nil_append, parseJStr_escN, ihf, Option.map_some']
      rw [show Char.ofNat 10 = c from h5 ▸ charOfNat_toNat c (by omega)]
    by_cases h6 : c.toNat = 12
    · simp only [escChar, if_neg h1, if_neg h2, if_neg h3, if_neg h4, if_neg h5, if_pos h6,
        List.cons_append, List.nil_append, parseJStr_escF, ihf, Option.map_some']
      rw [show Char.ofNat 12 = c from h6 ▸ charOfNat_toNat c (by omega)]
    by_cases h7 : c.toNat = 13
    · simp only [escChar, if_neg h1, if_neg h2, if_neg h3, if_neg h4, if_neg h5, if_neg h6,
        if_pos h7, List.cons_append, List.nil_append, parseJStr_escR, ihf, Option.map_some']
      rw [show Char.ofNat 13 = c from h7 ▸ charOfNat_toNat c (by omega)]
    by_cases h8 : c.toNat < 32
    · simp only [escChar, if_neg h1, if_neg h2, if_neg h3, if_neg h4, if_neg h5, if_neg h6,
        if_neg h7, if_pos h8, List.cons_append, List.nil_append]
      have hv1 : c.toNat / 16 < 16 := by omega
      have hv2 : c.toNat % 16 < 16 := by omega
      have hu : uVal '0' '0' (hexDigitCh (c.toNat / 16)) (hexDigitCh (c.toNat % 16)) = c.toNat := by
        simp only [uVal, hexChVal_hexDigitCh hv1, hexChVal_hexDigitCh hv2,
          (by decide : hexChVal '0' = 0)]
        omega
      rw [parseJStr_u00 _ _ _ _ (isHexCh_hexDigitCh hv1) (isHexCh_hexDigitCh hv2)
        (by rw [hu]; omega)]
      rw [hu, ihf, show Char.ofNat c.toNat = c from charOfNat_toNat c (by omega)]
      rfl
    · simp only [escChar, if_neg h1, if_neg h2, if_neg h3, if_neg h4, if_neg h5, if_neg h6,
        if_neg h7, if_neg h8, List.cons_append, List.nil_append]
      rw [parseJStr_raw f c _ h1 h2 h8, ihf]
      rfl

/-! ## Round-trip lemmas: parser stepping -/

theorem parseJV_val_skip (f : Nat) (pre s : List Char) (hpre : pre.all isJsonWs = true) :
    parseJV (f + 1) .val (pre ++ s) = parseJV (f + 1) .val s := by
  simp only [parseJV, skipWs_allWs_append _ hpre]

theorem parseJV_val_openBrace (f : Nat) (r : List Char) :
    parseJV (f + 1) .val ('{' :: r) =
      if (skipWs r).head? = some '}' then some (.jobj [], (skipWs r).tail)
      else parseJV f (.objCont []) r := rfl

theorem parseJV_val_openBracket (f : Nat) (r : List Char) :
    parseJV (f + 1) .val ('[' :: r) =
      if (skipWs r).head? = some ']' then some (.jarr [], (skipWs r).tail)
      else parseJV f (.arrCont []) r := rfl

theorem parseJV_val_quote (f : Nat) (r : List Char) :
    parseJV (f + 1) .val ('"' :: r) =
      (parseJStr (r.length + 1) r).map fun pr => (.jstr pr.1, pr.2) := rfl

theorem parseJV_val_null (f : Nat) (r : List Char) :
    parseJV (f + 1) .val ('n' :: r) =
      if r.take 3 = ['u', 'l', 'l'] then some (.jnull, r.drop 3) else none := rfl

theorem parseJV_val_true (f : Nat) (r : List Char) :
    parseJV (f + 1) .val ('t' :: r) =
      if r.take 3 = ['r', 'u', 'e'] then some (.jbool true, r.drop 3) else none := rfl

theorem parseJV_val_false (f : Nat) (r : List Char) :
    parseJV (f + 1) .val ('f' :: r) =
      if r.take 4 = ['a', 'l', 's', 'e'] then some (.jbool false, r.drop 4) else none := rfl

theorem parseJV_val_minus (f : Nat) (r : List Char) :
    parseJV (f + 1) .val ('-' :: r) =
      (parseJNat r).map fun pr => (.jnum (-(pr.1 : Int)), pr.2) := rfl

theorem parseJV_val_digit (f : Nat) (c : Char) (r : List Char) (h : isDigitCh c = true) :
    parseJV (f + 1) .val (c :: r) =
      (parseJNat (c :: r)).map fun pr => (.jnum (pr.1 : Int), pr.2) := by
  have hb : 48 ≤ c.toNat ∧ c.toNat ≤ 57 := by
    simpa [isDigitCh, Bool.and_eq_true, decide_eq_true_eq] using h
  have hws : isJsonWs c = false := by
    simp only [isJsonWs, Bool.or_eq_false_iff, decide_eq_false_iff_not]
    omega
  simp only [parseJV, skipWs_cons_neg _ hws]
  rw [if_neg (char_ne_of_toNat_ne (by simp at hb ⊢; omega)),
    if_neg (char_ne_of_toNat_ne (by simp at hb ⊢; omega)),
    if_neg (char_ne_of_toNat_ne (by simp at hb ⊢; omega)),
    if_neg (char_ne_of_toNat_ne (by simp at hb ⊢; omega)),
    if_neg (char_ne_of_toNat_ne (by simp at hb ⊢; omega)),
    if_neg (char_ne_of_toNat_ne (by simp at hb ⊢; omega)),
    if_neg (char_ne_of_toNat_ne (by simp at hb ⊢; omega)), if_pos h]

theorem parseJV_arrCont (f : Nat) (acc : List J) (s : List Char) :
    parseJV (f + 1) (.arrCont acc) s =
      match parseJV f .val s with
      | none => none
      | some (v, r) =>
        let t := skipWs r
        if t.head? = some ',' then parseJV f (.arrCont (acc ++ [v])) t.tail
        else if t.head? = some ']' then some (.jarr (acc ++ [v]), t.tail)
        else none := rfl

theorem parseJV_objCont (f : Nat) (acc : List (List Char × J)) (s : List Char) :
    parseJV (f + 1) (.objCont acc) s =
      (let t := skipWs s
      if t.head? = some '"' then
        match parseJStr (t.tail.length + 1) t.tail with
        | none => none
        | some (k, r2) =>
          let t2 := skipWs r2
          if t2.head? = some ':' then
            match parseJV f .val t2.tail with
            | none => none
            | some (v, r4) =>
              let t3 := skipWs r4
              if t3.head? = some ',' then parseJV f (.objCont (acc ++ [(k, v)])) t3.tail
              else if t3.head? = some '}' then some (.jobj (acc ++ [(k, v)]), t3.tail)
              else none
          else none
      else none) := rfl

/-! ## Round-trip lemmas: printer facts -/

theorem isJsonWs_false_of_codes {c : Char} (h32 : c.toNat ≠ 32) (h9 : c.toNat ≠ 9)
    (h10 : c.toNat ≠ 10) (h13 : c.toNat ≠ 13) : isJsonWs c = false := by
  simp only [isJsonWs, Bool.or_eq_false_iff, decide_eq_false_iff_not]
  omega

theorem itemPre_allWs (p : Bool) (ind : Nat) : (itemPre p ind).all isJsonWs = true := by
  cases p <;> simp [itemPre, List.all_eq_true, isJsonWs]

theorem closePre_allWs (p : Bool) (ind : Nat) : (closePre p ind).all isJsonWs = true := by
  cases p <;> simp [closePre, List.all_eq_true, isJsonWs]

theorem sizeJ_pos (x : J) : 1 ≤ sizeJ x := by
  cases x <;> simp [sizeJ]

mutual
theorem printJ_len (p : Bool) (ind : Nat) (x : J) : sizeJ x ≤ (printJ p ind x).length := by
  cases x with
  | jnull => simp [printJ, sizeJ]
  | jbool b => cases b <;> simp [printJ, sizeJ]
  | jnum n => simp [printJ, sizeJ]; obtain ⟨ds, h, hne, -⟩ := natDigits_spec n.toNat
              · simp only [intChars]
                split
                · simp
                · rw [h]
                  cases ds
                  · exact absurd rfl hne
                  · simp
  | jstr s => simp [printJ, sizeJ]
  | jarr es =>
    cases es with
    | nil => simp [printJ, sizeJ, sizeL]
    | cons e es =>
      have h1 := printJ_len p (ind + 2) e
      have h2 := printArrTail_len p ind es
      simp only [printJ, sizeJ, sizeL, List.length_cons, List.length_append]
      omega
  | jobj ms =>
    cases ms with
    | nil => simp [printJ, sizeJ, sizeM]
    | cons m ms =>
      have h1 := printMem_len p ind m
      have h2 := printObjTail_len p ind ms
      simp only [printJ, sizeJ, sizeM, List.length_cons, List.length_append]
      omega

theorem printMem_len (p : Bool) (ind : Nat) (m : List Char × J) :
    1 + sizeJ m.2 ≤ (printMem p ind m).length := by
  obtain ⟨k, v⟩ := m
  have h1 := printJ_len p (ind + 2) v
  simp only [printMem, List.length_cons, List.length_append]
  omega

theorem printArrTail_len (p : Bool) (ind : Nat) (es : List J) :
    sizeL es ≤ (printArrTail p ind es).length := by
  cases es with
  | nil => simp [printArrTail, sizeL]
  | cons e es =>
    have h1 := printJ_len p (ind + 2) e
    have h2 := printArrTail_len p ind es
    simp only [printArrTail, sizeL, List.length_cons, List.length_append]
    omega

theorem printObjTail_len (p : Bool) (ind : Nat) (ms : List (List Char × J)) :
    sizeM ms ≤ (printObjTail p ind ms).length := by
  cases ms with
  | nil => simp [printObjTail, sizeM]
  | cons m ms =>
    have h1 := printMem_len p ind m
    have h2 := printObjTail_len p ind ms
    simp only [printObjTail, sizeM, List.length_cons, List.length_append]
    omega
end

/-- Every printed JSON value starts with a non-whitespace character that is
not a closing bracket, closing brace, comma or colon. -/
theorem printJ_head (p : Bool) (ind : Nat) (x : J) :
    ∃ c cs, printJ p ind x = c :: cs ∧ isJsonWs c = false ∧
      c.toNat ≠ 93 ∧ c.toNat ≠ 125 ∧ c.toNat ≠ 44 ∧ c.toNat ≠ 58 := by
  cases x with
  | jnull =>
    refine ⟨'n', ['u', 'l', 'l'], ?_, by decide, by decide, by decide, by decide, by decide⟩
    simp [printJ]
  | jbool b =>
    cases b
    · refine ⟨'f', ['a', 'l', 's', 'e'], ?_, by decide, by decide, by decide, by decide,
        by decide⟩
      simp [printJ]
    · refine ⟨'t', ['r', 'u', 'e'], ?_, by decide, by decide, by decide, by decide, by decide⟩
      simp [printJ]
  | jnum n =>
    by_cases hn : n < 0
    · refine ⟨'-', natDigits n.natAbs, ?_, by decide, by decide, by decide, by decide,
        by decide⟩
      simp [printJ, intChars, hn]
    · obtain ⟨ds, h, hne, hdig, -⟩ := natDigits_spec n.toNat
      cases ds with
      | nil => exact absurd rfl hne
      | cons d ds2 =>
        have hd := hdig d (by simp)
        have hb : 48 ≤ d.toNat ∧ d.toNat ≤ 57 := by
          simpa [isDigitCh, Bool.and_eq_true, decide_eq_true_eq] using hd
        refine ⟨d, ds2, ?_, ?_, by omega, by omega, by omega, by omega⟩
        · simp [printJ, intChars, hn, h]
        · exact isJsonWs_false_of_codes (by omega) (by omega) (by omega) (by omega)
  | jstr s =>
    refine ⟨'"', escStr s ++ ['"'], ?_, by decide, by decide, by decide, by decide, by decide⟩
    simp [printJ]
  | jarr es =>
    cases es with
    | nil =>
      refine ⟨'[', [']'], ?_, by decide, by decide, by decide, by decide, by decide⟩
      simp [printJ]
    | cons e es =>
      refine ⟨'[', itemPre p ind ++ printJ p (ind + 2) e ++ printArrTail p ind es
        ++ closePre p ind ++ [']'], ?_, by decide, by decide, by decide, by decide, by decide⟩
      simp [printJ]
  | jobj ms =>
    cases ms with
    | nil =>
      refine ⟨'{', ['}'], ?_, by decide, by decide, by decide, by decide, by decide⟩
      simp [printJ]
    | cons m ms =>
      refine ⟨'{', itemPre p ind ++ printMem p ind m ++ printObjTail p ind ms
        ++ closePre p ind ++ ['}'], ?_, by decide, by decide, by decide, by decide, by decide⟩
      simp [printJ]

theorem escStr_len_ge (s : List Char) : s.length ≤ (escStr s).length := by
  induction s with
  | nil => simp [escStr]
  | cons c cs ih =>
    have : 1 ≤ (escChar c).length := by
      simp only [escChar]
      repeat' split
      all_goals simp
    simp only [escStr, List.length_append, List.length_cons]
    omega

theorem NDH_cons (c : Char) (t : List Char) (h : isDigitCh c = false) : NDH (c :: t) := by
  intro d hd
  simp only [List.head?_cons, Option.some_inj] at hd
  subst hd
  exact h

theorem NDH_closePre (p : Bool) (ind : Nat) (b : Char) (hb : isDigitCh b = false)
    (rest : List Char) : NDH (closePre p ind ++ (b :: rest)) := by
  cases p with
  | false => simpa [closePre] using NDH_cons b rest hb
  | true =>
    simp only [closePre, if_pos rfl, List.cons_append]
    exact NDH_cons _ _ (by decide)

theorem NDH_arrTail (p : Bool) (ind : Nat) (es : List J) (b : Char) (hb : isDigitCh b = false)
    (rest : List Char) :
    NDH (printArrTail p ind es ++ (closePre p ind ++ (b :: rest))) := by
  cases es with
  | nil => simpa [printArrTail] using NDH_closePre p ind b hb rest
  | cons e es =>
    simp only [printArrTail, List.cons_append]
    exact NDH_cons _ _ (by decide)

theorem NDH_objTail (p : Bool) (ind : Nat) (ms : List (List Char × J)) (b : Char)
    (hb : isDigitCh b = false) (rest : List Char) :
    NDH (printObjTail p ind ms ++ (closePre p ind ++ (b :: rest))) := by
  cases ms with
  | nil => simpa [printObjTail] using NDH_closePre p ind b hb rest
  | cons m ms =>
    simp only [printObjTail, List.cons_append]
    exact NDH_cons _ _ (by decide)

def AStmt (f : Nat) : Prop :=
  ∀ (p : Bool) (ind : Nat) (x : J) (pre rest : List Char),
    pre.all isJsonWs = true → sizeJ x ≤ f → NDH rest →
    parseJV f .val (pre ++ (printJ p ind x ++ rest)) = some (x, rest)

def BStmt (f : Nat) : Prop :=
  ∀ (p : Bool) (ind : Nat) (acc : List J) (e : J) (es : List J) (pre rest : List Char),
    pre.all isJsonWs = true → sizeJ e + sizeL es + 1 ≤ f → NDH rest →
    parseJV f (.arrCont acc)
      (pre ++ (printJ p (ind + 2) e ++ (printArrTail p ind es ++ (closePre p ind ++ (']' :: rest)))))
      = some (.jarr (acc ++ e :: es), rest)

def CStmt (f : Nat) : Prop :=
  ∀ (p : Bool) (ind : Nat) (acc : List (List Char × J)) (k : List Char) (v : J)
    (ms : List (List Char × J)) (pre rest : List Char),
    pre.all isJsonWs = true → 1 + sizeJ v + sizeM ms ≤ f → NDH rest →
    parseJV f (.objCont acc)
      (pre ++ (printMem p ind (k, v) ++ (printObjTail p ind ms ++ (closePre p ind ++ ('}' :: rest)))))
      = some (.jobj (acc ++ (k, v) :: ms), rest)

theorem colonStr_eq (p : Bool) : colonStr p = ':' :: (if p then [' '] else []) := by
  cases p <;> rfl

theorem colonTail_allWs (p : Bool) : ((if p then [' '] else []) : List Char).all isJsonWs = true := by
  cases p <;> decide

theorem rtABC : ∀ f, AStmt f ∧ BStmt f ∧ CStmt f := by
  intro f
  induction f with
  | zero =>
    refine ⟨?_, ?_, ?_⟩
    · intro p ind x pre rest hpre hsize hrest
      exact absurd hsize (by have := sizeJ_pos x; omega)
    · intro p ind acc e es pre rest hpre hsize hrest
      exact absurd hsize (by omega)
    · intro p ind acc k v ms pre rest hpre hsize hrest
      exact absurd hsize (by omega)
  | succ f ih =>
    obtain ⟨ihA, ihB, ihC⟩ := ih
    refine ⟨?_, ?_, ?_⟩
    · -- AStmt (f+1)
      intro p ind x pre rest hpre hsize hrest
      rw [parseJV_val_skip f pre _ hpre]
      cases x with
      | jnull =>
        simp only [printJ, List.cons_append, List.nil_append]
        rw [parseJV_val_null]
        simp [List.take, List.drop]
      | jbool b =>
        cases b
        · simp only [printJ, List.cons_append, List.nil_append]
          rw [parseJV_val_false]
          simp [List.take, List.drop]
        · simp only [printJ, List.cons_append, List.nil_append]
          rw [parseJV_val_true]
          simp [List.take, List.drop]
      | jnum n =>
        simp only [printJ]
        by_cases hn : n < 0
        · simp only [intChars, if_pos hn, List.cons_append]
          rw [parseJV_val_minus, parseJNat_natDigits _ _ hrest]
          simp only [Option.map_some']
          rw [show -((n.natAbs : Nat) : Int) = n by omega]
        · simp only [intChars, if_neg hn]
          obtain ⟨ds, hds, hne, hdig, -⟩ := natDigits_spec n.toNat
          cases ds with
          | nil => exact absurd rfl hne
          | cons d ds2 =>
            rw [hds, List.cons_append, parseJV_val_digit f d _ (hdig d (by simp)),
              ← List.cons_append, ← hds, parseJNat_natDigits _ _ hrest]
            simp only [Option.map_some']
            rw [show ((n.toNat : Nat) : Int) = n by omega]
      | jstr s =>
        simp only [printJ, List.cons_append, List.append_assoc, List.singleton_append,
            List.nil_append]
        rw [parseJV_val_quote, parseJStr_escStr s _ rest
          (by
            have := escStr_len_ge s
            simp only [List.length_append, List.length_cons]
            omega)]
        rfl
      | jarr es =>
        cases es with
        | nil =>
          simp only [printJ, List.cons_append, List.nil_append, List.singleton_append]
          rw [parseJV_val_openBracket]
          rw [skipWs_cons_neg _ (by decide : isJsonWs ']' = false)]
          simp
        | cons e es =>
          simp only [printJ, List.cons_append, List.append_assoc, List.singleton_append,
            List.nil_append]
          rw [parseJV_val_openBracket]
          obtain ⟨c0, cs0, hpr, hws0, h93, h125, h44, h58⟩ := printJ_head p (ind + 2) e
          have hr : skipWs (itemPre p ind ++ (printJ p (ind + 2) e ++ (printArrTail p ind es
              ++ (closePre p ind ++ (']' :: rest))))) =
              c0 :: (cs0 ++ (printArrTail p ind es ++ (closePre p ind ++ (']' :: rest)))) := by
            rw [skipWs_allWs_append _ (itemPre_allWs p ind), hpr, List.cons_append,
              skipWs_cons_neg _ hws0]
          rw [hr]
          rw [if_neg (by
            simp only [List.head?_cons, Option.some_inj]
            exact fun hEq => h93 (by rw [hEq]; rfl))]
          have hb := ihB p ind [] e es (itemPre p ind) rest (itemPre_allWs p ind)
            (by simp only [sizeJ, sizeL] at hsize; omega) hrest
          simpa using hb
      | jobj ms =>
        cases ms with
        | nil =>
          simp only [printJ, List.cons_append, List.nil_append, List.singleton_append]
          rw [parseJV_val_openBrace]
          rw [skipWs_cons_neg _ (by decide : isJsonWs '}' = false)]
          simp
        | cons m ms =>
          obtain ⟨k, v⟩ := m
          simp only [printJ, List.cons_append, List.append_assoc, List.singleton_append,
            List.nil_append]
          rw [parseJV_val_openBrace]
          have hr : skipWs (itemPre p ind ++ (printMem p ind (k, v) ++ (printObjTail p ind ms
              ++ (closePre p ind ++ ('}' :: rest))))) =
              '"' :: ((escStr k ++ ['"'] ++ colonStr p ++ printJ p (ind + 2) v)
                ++ (printObjTail p ind ms ++ (closePre p ind ++ ('}' :: rest)))) := by
            rw [skipWs_allWs_append _ (itemPre_allWs p ind)]
            simp only [printMem, List.cons_append]
            rw [skipWs_cons_neg _ (by decide : isJsonWs '"' = false)]
          rw [hr]
          rw [if_neg (by
            simp only [List.head?_cons, Option.some_inj]
            intro hEq
            exact absurd (char_eq_toNat _ _ hEq) (by decide))]
          have hc := ihC p ind [] k v ms (itemPre p ind) rest (itemPre_allWs p ind)
            (by simp only [sizeJ, sizeM] at hsize; omega) hrest
          simpa using hc
    · -- BStmt (f+1)
      intro p ind acc e es pre rest hpre hsize hrest
      have hndh : NDH (printArrTail p ind es ++ (closePre p ind ++ (']' :: rest))) :=
        NDH_arrTail p ind es ']' (by decide) rest
      have hv := ihA p (ind + 2) e pre
        (printArrTail p ind es ++ (closePre p ind ++ (']' :: rest))) hpre
        (by have := sizeJ_pos e; omega) hndh
      rw [parseJV_arrCont]
      simp only [hv]
      cases es with
      | nil =>
        simp only [printArrTail, List.nil_append]
        rw [skipWs_allWs_append _ (closePre_allWs p ind),
          skipWs_cons_neg _ (by decide : isJsonWs ']' = false)]
        simp
      | cons e2 es2 =>
        simp only [printArrTail, List.cons_append, List.append_assoc]
        rw [skipWs_cons_neg _ (by decide : isJsonWs ',' = false)]
        simp only [List.head?_cons, Option.some_inj, if_pos rfl, List.tail_cons]
        have hb := ihB p ind (acc ++ [e]) e2 es2 (itemPre p ind) rest (itemPre_allWs p ind)
          (by have := sizeJ_pos e; simp only [sizeL] at hsize; omega) hrest
        rw [hb]
        simp
    · -- CStmt (f+1)
      intro p ind acc k v ms pre rest hpre hsize hrest
      rw [parseJV_objCont]
      have hs : skipWs (pre ++ (printMem p ind (k, v) ++ (printObjTail p ind ms
          ++ (closePre p ind ++ ('}' :: rest))))) =
          '"' :: (escStr k ++ ('"' :: (colonStr p ++ (printJ p (ind + 2) v
            ++ (printObjTail p ind ms ++ (closePre p ind ++ ('}' :: rest))))))) := by
        rw [skipWs_allWs_append _ hpre]
        simp only [printMem, List.cons_append, List.append_assoc, List.singleton_append,
          List.nil_append]
        rw [skipWs_cons_neg _ (by decide : isJsonWs '"' = false)]
      rw [hs]
      simp only [List.head?_cons, Option.some_inj, if_pos rfl, List.tail_cons]
      rw [parseJStr_escStr k _ _ (by
        have := escStr_len_ge k
        simp only [List.length_append, List.length_cons]
        omega)]
      simp only []
      rw [colonStr_eq, List.cons_append,
        skipWs_cons_neg _ (by decide : isJsonWs ':' = false)]
      simp only [List.head?_cons, Option.some_inj, if_pos rfl, List.tail_cons]
      have hndh : NDH (printObjTail p ind ms ++ (closePre p ind ++ ('}' :: rest))) :=
        NDH_objTail p ind ms '}' (by decide) rest
      have hv := ihA p (ind + 2) v (if p then [' '] else [])
        (printObjTail p ind ms ++ (closePre p ind ++ ('}' :: rest))) (colonTail_allWs p)
        (by have := sizeJ_pos v; omega) hndh
      simp only [hv]
      cases ms with
      | nil =>
        simp only [printObjTail, List.nil_append]
        rw [skipWs_allWs_append _ (closePre_allWs p ind),
          skipWs_cons_neg _ (by decide : isJsonWs '}' = false)]
        simp
      | cons m2 ms2 =>
        obtain ⟨k2, v2⟩ := m2
        simp only [printObjTail, List.cons_append, List.append_assoc]
        rw [skipWs_cons_neg _ (by decide : isJsonWs ',' = false)]
        simp only [List.head?_cons, Option.some_inj, if_pos rfl, List.tail_cons]
        have hc := ihC p ind (acc ++ [(k, v)]) k2 v2 ms2 (itemPre p ind) rest
          (itemPre_allWs p ind)
          (by have := sizeJ_pos v; simp only [sizeM] at hsize; omega) hrest
        rw [hc]
        simp

/-- Top-level round-trip: parsing a stringified value returns it exactly. -/
theorem jsonParse_printJ (p : Bool) (x : J) : jsonParse (printJ p 0 x) = some x := by
  have h := (rtABC ((printJ p 0 x).length + 1)).1 p 0 x [] []
    (by simp) (by have := printJ_len p 0 x; omega) NDH_nil
  simp only [List.nil_append, List.append_nil] at h
  simp only [jsonParse, h]
  simp [skipWs_nil]

/-! ## JSON transformers (`prettyPrintJson`, `minifyJson`)

The source functions take `string | object`; the two input kinds become the
`...Str` and `...Obj` variants.  The `try`/`catch` around `JSON.parse` is
the `none` branch. -/

/-- `prettyPrintJson` on an already-parsed object: `JSON.stringify(obj, null, 2)`. -/
def prettyPrintJsonObj (x : J) : List Char := printJ true 0 x

/-- `prettyPrintJson` on a string: parse, re-stringify with 2-space indent;
on parse failure return the input unchanged (the `catch` branch). -/
def prettyPrintJsonStr (s : List Char) : List Char :=
  match jsonParse s with
  | some v => printJ true 0 v
  | none => s

/-- `minifyJson` on an already-parsed object: `JSON.stringify(obj)`. -/
def minifyJsonObj (x : J) : List Char := printJ false 0 x

/-- `minifyJson` on a string: parse and re-stringify compactly; on parse
failure return the input unchanged (the `catch` branch). -/
def minifyJsonStr (s : List Char) : List Char :=
  match jsonParse s with
  | some v => printJ false 0 v
  | none => s

/-! ## `atob` (WHATWG forgiving-base64 decode) -/

/-- ASCII whitespace removed by forgiving-base64. -/
def isB64Ws (c : Char) : Bool :=
  c.toNat = 9 || c.toNat = 10 || c.toNat = 12 || c.toNat = 13 || c.toNat = 32

/-- Value of a base64 alphabet character. -/
def b64Val (c : Char) : Option Nat :=
  if 65 ≤ c.toNat ∧ c.toNat ≤ 90 then some (c.toNat - 65)
  else if 97 ≤ c.toNat ∧ c.toNat ≤ 122 then some (c.toNat - 71)
  else if 48 ≤ c.toNat ∧ c.toNat ≤ 57 then some (c.toNat + 4)
  else if c.toNat = 43 then some 62
  else if c.toNat = 47 then some 63
  else none

/-- Strip one or two trailing `=` padding characters. -/
def dropTrailEq (l : List Char) : List Char :=
  match l.reverse with
  | '=' :: '=' :: t => t.reverse
  | '=' :: t => t.reverse
  | _ => l

def mapB64 : List Char → Option (List Nat)
  | [] => some []
  | c :: cs =>
    match b64Val c, mapB64 cs with
    | some v, some vs => some (v :: vs)
    | _, _ => none

/-- Reassemble 6-bit groups into bytes (leftover bits discarded, as in the
forgiving-base64 algorithm). -/
def b64Quad : List Nat → List Nat
  | a :: b :: c :: d :: rest =>
    (a * 4 + b / 16) :: ((b % 16) * 16 + c / 4) :: ((c % 4) * 64 + d) :: b64Quad rest
  | [a, b] => [a * 4 + b / 16]
  | [a, b, c] => [a * 4 + b / 16, (b % 16) * 16 + c / 4]
  | _ => []

/-- `atob`: forgiving-base64 decode to a byte list; `none` models the thrown
`InvalidCharacterError` (always caught by the source's `try`/`catch`). -/
def atob (s : List Char) : Option (List Nat) :=
  let t := s.filter (fun c => !isB64Ws c)
  let t2 := if t.length % 4 == 0 then dropTrailEq t else t
  if t2.length % 4 == 1 then none
  else (mapB64 t2).map b64Quad

/-- The byte-valued string `atob` returns (each byte is one char, latin-1). -/
def bytesToChars (bs : List Nat) : List Char := bs.map Char.ofNat

/-- The source's global replace of `-` by `+` and `_` by `/`:
base64url alphabet to standard alphabet. -/
def b64urlNorm (l : List Char) : List Char :=
  l.map fun c => if c = '-' then '+' else if c = '_' then '/' else c

/-! ## Regex test models (one per regex constant of `detector.ts`) -/

/-- `[A-Za-z0-9_-]` (JWT / base64url segment alphabet). -/
def urlB64Ch (c : Char) : Bool := isAlphaCh c || isDigitCh c || c.toNat = 95 || c.toNat = 45

/-- `JWT_REGEX = /^[A-Za-z0-9_-]+\.[A-Za-z0-9_-]+\.[A-Za-z0-9_-]*$/`:
three dot-separated segments, the first two nonempty. -/
def jwtRegexTest (t : List Char) : Bool :=
  match splitOnCh '.' t with
  | [p0, p1, p2] =>
    !p0.isEmpty && !p1.isEmpty && p0.all urlB64Ch && p1.all urlB64Ch && p2.all urlB64Ch
  | _ => false

/-- `UUID_REGEX` (8-4-4-4-12 hex groups, case-insensitive). -/
def uuidTest (t : List Char) : Bool :=
  match splitOnCh '-' t with
  | [a, b, c, d, e] =>
    a.length == 8 && b.length == 4 && c.length == 4 && d.length == 4 && e.length == 12 &&
    (a.all isHexCh && b.all isHexCh && c.all isHexCh && d.all isHexCh && e.all isHexCh)
  | _ => false

/-- `[A-Za-z0-9+/=]` (standard base64 alphabet with padding). -/
def base64Ch (c : Char) : Bool :=
  isAlphaCh c || isDigitCh c || c.toNat = 43 || c.toNat = 47 || c.toNat = 61

/-- `BASE64_REGEX = /^[A-Za-z0-9+/=]{32,}$/`. -/
def base64Test (t : List Char) : Bool := 32 ≤ t.length && t.all base64Ch

/-- `BASE64_URL_SAFE_REGEX = /^[A-Za-z0-9_-]{32,}=*$/`. -/
def base64UrlTest (t : List Char) : Bool :=
  let body := t.takeWhile fun c => !(c.toNat = 61 : Bool)
  let pad := t.dropWhile fun c => !(c.toNat = 61 : Bool)
  32 ≤ body.length && body.all urlB64Ch && pad.all fun c => (c.toNat = 61 : Bool)

/-- `EPOCH_REGEX = /^\d{10,13}$/`. -/
def epochTest (t : List Char) : Bool := 10 ≤ t.length && t.length ≤ 13 && t.all isDigitCh

/-- `HEX_NUMBER_REGEX = /^0x[0-9A-Fa-f]+$/`. -/
def hexNumTest : List Char → Bool
  | c1 :: c2 :: rest => c1 = '0' && c2 = 'x' && !rest.isEmpty && rest.all isHexCh
  | _ => false

/-- `BINARY_REGEX = /^0b[01]+$/`. -/
def binNumTest : List Char → Bool
  | c1 :: c2 :: rest =>
    c1 = '0' && c2 = 'b' && !rest.isEmpty && rest.all fun c => c.toNat = 48 || c.toNat = 49
  | _ => false

/-- `OCTAL_REGEX = /^0o[0-7]+$/`. -/
def octNumTest : List Char → Bool
  | c1 :: c2 :: rest =>
    c1 = '0' && c2 = 'o' && !rest.isEmpty && rest.all fun c => 48 ≤ c.toNat && c.toNat ≤ 55
  | _ => false

/-- A `%XX` escape at the head of the list. -/
def pctAtHead : List Char → Bool
  | '%' :: h1 :: h2 :: _ => isHexCh h1 && isHexCh h2
  | _ => false

/-- `URL_ENCODED_REGEX.test` = some position starts a `%XX` escape. -/
def hasPctHexHex : List Char → Bool
  | [] => false
  | c :: cs => pctAtHead (c :: cs) || hasPctHexHex cs

/-- Number of (non-overlapping, left-to-right) `%XX` matches, as
`(s.match(/%[0-9A-Fa-f]{2}/g) || []).length` counts them. -/
def countPctXX : List Char → Nat
  | '%' :: h1 :: h2 :: rest =>
    if isHexCh h1 && isHexCh h2 then 1 + countPctXX rest
    else countPctXX (h1 :: h2 :: rest)
  | _ :: cs => countPctXX cs
  | [] => 0

/-! ## `decodeURIComponent`

Percent-escapes are decoded bytewise and the byte sequences must form valid
UTF-8 (otherwise the JS builtin throws `URIError`, modelled as `none`).
Fuel-indexed so the kernel can evaluate it. -/

def hexPair (h1 h2 : Char) : Option Nat :=
  if isHexCh h1 && isHexCh h2 then some (hexChVal h1 * 16 + hexChVal h2) else none

def decodeURICompF : Nat → List Char → Option (List Char)
  | 0, _ => none
  | _, [] => some []
  | fuel + 1, '%' :: h1 :: h2 :: rest =>
    match hexPair h1 h2 with
    | none => none
    | some b =>
      if b < 0x80 then (decodeURICompF fuel rest).map (Char.ofNat b :: ·)
      else if 0xC2 ≤ b ∧ b ≤ 0xDF then
        match rest with
        | '%' :: h3 :: h4 :: rest2 =>
          match hexPair h3 h4 with
          | some b2 =>
            if 0x80 ≤ b2 ∧ b2 ≤ 0xBF then
              (decodeURICompF fuel rest2).map (Char.ofNat ((b - 0xC0) * 64 + (b2 - 0x80)) :: ·)
            else none
          | none => none
        | _ => none
      else if 0xE0 ≤ b ∧ b ≤ 0xEF then
        match rest with
        | '%' :: h3 :: h4 :: '%' :: h5 :: h6 :: rest2 =>
          match hexPair h3 h4, hexPair h5 h6 with
          | some b2, some b3 =>
            let lo2 := if b = 0xE0 then 0xA0 else 0x80
            let hi2 := if b = 0xED then 0x9F else 0xBF
            if (lo2 ≤ b2 ∧ b2 ≤ hi2) ∧ (0x80 ≤ b3 ∧ b3 ≤ 0xBF) then
              (decodeURICompF fuel rest2).map
                (Char.ofNat ((b - 0xE0) * 4096 + (b2 - 0x80) * 64 + (b3 - 0x80)) :: ·)
            else none
          | _, _ => none
        | _ => none
      else if 0xF0 ≤ b ∧ b ≤ 0xF4 then
        match rest with
        | '%' :: h3 :: h4 :: '%' :: h5 :: h6 :: '%' :: h7 :: h8 :: rest2 =>
          match hexPair h3 h4, hexPair h5 h6, hexPair h7 h8 with
          | some b2, some b3, some b4 =>
            let lo2 := if b = 0xF0 then 0x90 else 0x80
            let hi2 := if b = 0xF4 then 0x8F else 0xBF
            if (lo2 ≤ b2 ∧ b2 ≤ hi2) ∧ (0x80 ≤ b3 ∧ b3 ≤ 0xBF) ∧ (0x80 ≤ b4 ∧ b4 ≤ 0xBF) then
              (decodeURICompF fuel rest2).map
                (Char.ofNat ((b - 0xF0) * 0x40000 + (b2 - 0x80) * 4096 + (b3 - 0x80) * 64
                  + (b4 - 0x80)) :: ·)
            else none
          | _, _, _ => none
        | _ => none
      else none
  | fuel + 1, c :: cs =>
    if c = '%' then none
    else (decodeURICompF fuel cs).map (c :: ·)

/-- `decodeURIComponent`; `none` models a thrown `URIError`. -/
def decodeURIComp (s : List Char) : Option (List Char) :=
  decodeURICompF (s.length + 1) s

/-! ## Color model

JS floating-point arithmetic inside the color conversions is modelled by
exact fractions `Frac` (numerator/denominator, denominator kept positive),
with comparisons and equality taken value-wise, exactly as `===`, `<`, `>`
compare JS numbers.  Every channel value the source ever stores is an
integer (`parseInt` captures, `Math.round` outputs), so `ColorRGB` and
`ColorHSL` carry `Int` channels; alpha is `Option Frac` where `none` models
`NaN` (`parseFloat` of a dots-only capture). -/

structure Frac where
  n : Int
  d : Int
deriving DecidableEq

def fof (k : Int) : Frac := ⟨k, 1⟩

def fadd (a b : Frac) : Frac := ⟨a.n * b.d + b.n * a.d, a.d * b.d⟩

def fsub (a b : Frac) : Frac := ⟨a.n * b.d - b.n * a.d, a.d * b.d⟩

def fmul (a b : Frac) : Frac := ⟨a.n * b.n, a.d * b.d⟩

/-- Division, keeping the denominator positive. -/
def fdivF (a b : Frac) : Frac :=
  if b.n < 0 then ⟨-(a.n * b.d), a.d * (-b.n)⟩ else ⟨a.n * b.d, a.d * b.n⟩

/-- Value-wise `<` (denominators positive). -/
def fltB (a b : Frac) : Bool := a.n * b.d < b.n * a.d

/-- Value-wise `===`. -/
def feqB (a b : Frac) : Bool := a.n * b.d == b.n * a.d

/-- `Math.max` on JS numbers. -/
def fmax (a b : Frac) : Frac := if fltB a b then b else a

/-- `Math.min` on JS numbers. -/
def fmin (a b : Frac) : Frac := if fltB b a then b else a

/-- `Math.round` (round half toward +∞): `⌊x + 1/2⌋`. -/
def jsRoundF (x : Frac) : Int := (2 * x.n + x.d).fdiv (2 * x.d)

structure ColorRGB where
  r : Int
  g : Int
  b : Int
  a : Option Frac
deriving DecidableEq

structure ColorHSL where
  h : Int
  s : Int
  l : Int
  a : Option Frac
deriving DecidableEq

/-- `[\d.]` (digits or dots, the alpha capture group). -/
def numDotCh (c : Char) : Bool := isDigitCh c || c.toNat = 46

/-- `parseFloat` on a `[\d.]+` capture: longest `digits[.digits]` prefix;
`none` models `NaN` (no leading digits, e.g. `"."` or `".."`). -/
def parseFloatDots (l : List Char) : Option Frac :=
  let intPart := l.takeWhile isDigitCh
  let r := l.dropWhile isDigitCh
  match r with
  | '.' :: r2 =>
    let frac := r2.takeWhile isDigitCh
    if intPart.isEmpty ∧ frac.isEmpty then none
    else some ⟨digitsVal intPart * 10 ^ frac.length + digitsVal frac, (10 : Int) ^ frac.length⟩
  | _ =>
    if intPart.isEmpty then none else some (fof (digitsVal intPart))

/-- Lower-case an ASCII letter (the `/i` regex flag). -/
def lowerCh (c : Char) : Char :=
  if 65 ≤ c.toNat ∧ c.toNat ≤ 90 then Char.ofNat (c.toNat + 32) else c

/-- `(\d{1,3})`: a maximal digit run of length 1–3 (a longer run fails the
whole match) and its value via `parseInt(..., 10)`. -/
def num3 (l : List Char) : Option (Nat × List Char) :=
  let ds := l.takeWhile isDigitCh
  if ds.isEmpty ∨ 3 < ds.length then none
  else some (digitsVal ds, l.dropWhile isDigitCh)

/-- The shared tail `\s*(,\s*([\d.]+))?\s*\)$` of the rgb/hsl regexes:
returns the alpha capture (`none` = group absent). -/
def rgbaTail (l : List Char) : Option (Option (List Char)) :=
  let l1 := l.dropWhile isJsWs
  match l1 with
  | [] => none
  | c :: r =>
    if c = ')' then (if r.isEmpty then some none else none)
    else if c = ',' then
      let r1 := r.dropWhile isJsWs
      let a := r1.takeWhile numDotCh
      let r2 := r1.dropWhile numDotCh
      if a.isEmpty then none
      else
        let r3 := r2.dropWhile isJsWs
        match r3 with
        | [')'] => some (some a)
        | _ => none
    else none

/-- `\s*,\s*` between two numeric components. -/
def commaSep (l : List Char) : Option (List Char) :=
  let l1 := l.dropWhile isJsWs
  match l1 with
  | ',' :: r => some (r.dropWhile isJsWs)
  | _ => none

/-- `%?` after the s/l components of the hsl regex. -/
def skipPct (l : List Char) : List Char :=
  match l with
  | '%' :: r => r
  | _ => l

/-- `RGB_COLOR_REGEX` / the structurally identical capture regex in
`parseColor`: `^rgba?\s*\(\s*(\d{1,3})\s*,\s*(\d{1,3})\s*,\s*(\d{1,3})\s*(,\s*[\d.]+)?\s*\)$`
with `/i`; returns the three integer captures and the alpha capture. -/
def rgbCaptures (t : List Char) : Option (Nat × Nat × Nat × Option (List Char)) :=
  match t with
  | c1 :: c2 :: c3 :: r =>
    if lowerCh c1 = 'r' ∧ lowerCh c2 = 'g' ∧ lowerCh c3 = 'b' then
      let r1 := match r with
        | c4 :: r4 => if lowerCh c4 = 'a' then r4 else r
        | [] => r
      match (r1.dropWhile isJsWs) with
      | '(' :: r3 =>
        match num3 (r3.dropWhile isJsWs) with
        | none => none
        | some (v1, r5) =>
          match commaSep r5 with
          | none => none
          | some r6 =>
            match num3 r6 with
            | none => none
            | some (v2, r7) =>
              match commaSep r7 with
              | none => none
              | some r8 =>
                match num3 r8 with
                | none => none
                | some (v3, r9) =>
                  match rgbaTail r9 with
                  | none => none
                  | some al => some (v1, v2, v3, al)
      | _ => none
    else none
  | _ => none

/-- `HSL_COLOR_REGEX` / `parseColor`'s hsl capture regex:
`^hsla?\s*\(\s*(\d{1,3})\s*,\s*(\d{1,3})%?\s*,\s*(\d{1,3})%?\s*(,\s*[\d.]+)?\s*\)$` with `/i`. -/
def hslCaptures (t : List Char) : Option (Nat × Nat × Nat × Option (List Char)) :=
  match t with
  | c1 :: c2 :: c3 :: r =>
    if lowerCh c1 = 'h' ∧ lowerCh c2 = 's' ∧ lowerCh c3 = 'l' then
      let r1 := match r with
        | c4 :: r4 => if lowerCh c4 = 'a' then r4 else r
        | [] => r
      match (r1.dropWhile isJsWs) with
      | '(' :: r3 =>
        match num3 (r3.dropWhile isJsWs) with
        | none => none
        | some (v1, r5) =>
          match commaSep r5 with
          | none => none
          | some r6 =>
            match num3 r6 with
            | none => none
            | some (v2, r7) =>
              match commaSep (skipPct r7) with
              | none => none
              | some r8 =>
                match num3 r8 with
                | none => none
                | some (v3, r9) =>
                  match rgbaTail (skipPct r9) with
                  | none => none
                  | some al => some (v1, v2, v3, al)
      | _ => none
    else none
  | _ => none

/-- `HEX_COLOR_REGEX = /^#([A-Fa-f0-9]{3}|[A-Fa-f0-9]{6}|[A-Fa-f0-9]{8})$/`
(the detector's hex pattern: exactly 3, 6 or 8 hex digits). -/
def hexColorTest : List Char → Bool
  | c :: rest =>
    c = '#' && rest.all isHexCh && (rest.length == 3 || rest.length == 6 || rest.length == 8)
  | [] => false

/-- `parseColor`'s hex pattern `/^#([A-Fa-f0-9]{3,8})$/` (3 to 8 digits). -/
def hexLooseMatch : List Char → Option (List Char)
  | c :: rest =>
    if c = '#' ∧ (rest.all isHexCh && (3 ≤ rest.length && rest.length ≤ 8)) = true then some rest
    else none
  | [] => none

/-- The `hue2rgb` helper inside `hslToRgb`. -/
def hue2rgb (p q t0 : Frac) : Frac :=
  let t1 := if fltB t0 (fof 0) then fadd t0 (fof 1) else t0
  let t := if fltB (fof 1) t1 then fsub t1 (fof 1) else t1
  if fltB t ⟨1, 6⟩ then fadd p (fmul (fmul (fsub q p) (fof 6)) t)
  else if fltB t ⟨1, 2⟩ then q
  else if fltB t ⟨2, 3⟩ then fadd p (fmul (fmul (fsub q p) (fsub ⟨2, 3⟩ t)) (fof 6))
  else p

/-- `hslToRgb` (`detector.ts` lines 609–641): piecewise hue interpolation,
`Math.round` on each output channel. -/
def hslToRgb (hsl : ColorHSL) : ColorRGB :=
  let h : Frac := ⟨hsl.h, 360⟩
  let s : Frac := ⟨hsl.s, 100⟩
  let l : Frac := ⟨hsl.l, 100⟩
  if feqB s (fof 0) then
    { r := jsRoundF (fmul l (fof 255)), g := jsRoundF (fmul l (fof 255)),
      b := jsRoundF (fmul l (fof 255)), a := hsl.a }
  else
    let q := if fltB l ⟨1, 2⟩ then fmul l (fadd (fof 1) s) else fsub (fadd l s) (fmul l s)
    let p := fsub (fmul (fof 2) l) q
    { r := jsRoundF (fmul (hue2rgb p q (fadd h ⟨1, 3⟩)) (fof 255))
      g := jsRoundF (fmul (hue2rgb p q h) (fof 255))
      b := jsRoundF (fmul (hue2rgb p q (fsub h ⟨1, 3⟩)) (fof 255))
      a := hsl.a }

/-- `rgbToHsl` (`detector.ts` lines 646–681).  The `switch (max)` compares
the exact values, first matching case wins. -/
def rgbToHsl (rgb : ColorRGB) : ColorHSL :=
  let r : Frac := ⟨rgb.r, 255⟩
  let g : Frac := ⟨rgb.g, 255⟩
  let b : Frac := ⟨rgb.b, 255⟩
  let mx := fmax r (fmax g b)
  let mn := fmin r (fmin g b)
  let l := fdivF (fadd mx mn) (fof 2)
  if feqB mx mn then
    { h := jsRoundF (fof 0), s := jsRoundF (fof 0), l := jsRoundF (fmul l (fof 100)),
      a := rgb.a }
  else
    let d := fsub mx mn
    let s := if fltB ⟨1, 2⟩ l then fdivF d (fsub (fsub (fof 2) mx) mn)
             else fdivF d (fadd mx mn)
    let h :=
      if feqB mx r then
        fdivF (fadd (fdivF (fsub g b) d) (if fltB g b then fof 6 else fof 0)) (fof 6)
      else if feqB mx g then fdivF (fadd (fdivF (fsub b r) d) (fof 2)) (fof 6)
      else if feqB mx b then fdivF (fadd (fdivF (fsub r g) d) (fof 4)) (fof 6)
      else fof 0
    { h := jsRoundF (fmul h (fof 360)), s := jsRoundF (fmul s (fof 100)),
      l := jsRoundF (fmul l (fof 100)), a := rgb.a }

/-- `parseColor` (`detector.ts` lines 551–604). -/
def parseColor (input : List Char) : Option ColorRGB :=
  let trimmed := jsTrim input
  match hexLooseMatch trimmed with
  | some hex =>
    if hex.length == 3 then
      match hex with
      | [d1, d2, d3] =>
        some { r := hexVal [d1, d1], g := hexVal [d2, d2], b := hexVal [d3, d3],
               a := some (fof 1) }
      | _ => none
    else if hex.length == 6 then
      some { r := hexVal (hex.take 2), g := hexVal ((hex.drop 2).take 2),
             b := hexVal ((hex.drop 4).take 2), a := some (fof 1) }
    else if hex.length == 8 then
      some { r := hexVal (hex.take 2), g := hexVal ((hex.drop 2).take 2),
             b := hexVal ((hex.drop 4).take 2),
             a := some (fdivF (fof (hexVal ((hex.drop 6).take 2))) (fof 255)) }
    else none
  | none =>
    match rgbCaptures trimmed with
    | some (v1, v2, v3, al) =>
      some { r := v1, g := v2, b := v3,
             a := match al with
                  | some aStr => parseFloatDots aStr
                  | none => some (fof 1) }
    | none =>
      match hslCaptures trimmed with
      | some (v1, v2, v3, al) =>
        hslToRgb { h := v1, s := v2, l := v3,
                   a := match al with
                        | some aStr => parseFloatDots aStr
                        | none => some (fof 1) }
      | none => none

/-! ## Color formatting (`colorToFormats` and helpers) -/

/-- Hex digits of a natural number, lowercase (`n.toString(16)`), fuel-based. -/
def natHexAux : Nat → Nat → List Char → List Char
  | 0, _, acc => acc
  | f + 1, n, acc =>
    if n < 16 then hexDigitCh n :: acc
    else natHexAux f (n / 16) (hexDigitCh (n % 16) :: acc)

def natToHex (n : Nat) : List Char := natHexAux (n + 1) n []

/-- `(k).toString(16)` for a possibly negative integer (the complementary
color of an out-of-range channel can be negative). -/
def intToHex (k : Int) : List Char :=
  if k < 0 then '-' :: natToHex k.natAbs else natToHex k.toNat

/-- `.padStart(2, '0')`. -/
def padStart2 (l : List Char) : List Char :=
  if l.length < 2 then List.replicate (2 - l.length) '0' ++ l else l

/-- Decimal digits of an integer (JS number-to-string for integer values). -/
def intToDec (k : Int) : List Char :=
  if k < 0 then '-' :: natDigits k.natAbs else natDigits k.toNat

/-- JS number-to-string for the `Frac` values that occur as alpha channels
(integers, or terminating decimal fractions; `none`/`NaN` prints `NaN`).
Trailing fraction zeros are trimmed as in JS shortest-form printing. -/
def fracToChars (x : Option Frac) : List Char :=
  match x with
  | none => ['N', 'a', 'N']
  | some f =>
    if f.d = 0 then ['N', 'a', 'N']
    else
      let neg := decide (f.n * f.d < 0)
      let n := f.n.natAbs
      let d := f.d.natAbs
      let ip := n / d
      let digits := (List.range 20).foldl
        (fun (st : Nat × List Char) _ =>
          let rem := st.1
          if rem = 0 then st
          else (rem * 10 % d, st.2 ++ [digitCh (rem * 10 / d)]))
        (n % d, [])
      let fracDigits := (digits.2.reverse.dropWhile (· = '0')).reverse
      (if neg then ['-'] else []) ++ natDigits ip ++
        (if fracDigits.isEmpty then [] else '.' :: fracDigits)

/-- The fixed Tailwind palette of `findTailwindColor` (name, r, g, b). -/
def tailwindColors : List (List Char × Int × Int × Int) :=
  [(['s','l','a','t','e','-','5','0'], 248, 250, 252),
   (['s','l','a','t','e','-','1','0','0'], 241, 245, 249),
   (['s','l','a','t','e','-','2','0','0'], 226, 232, 240),
   (['s','l','a','t','e','-','3','0','0'], 203, 213, 225),
   (['s','l','a','t','e','-','4','0','0'], 148, 163, 184),
   (['s','l','a','t','e','-','5','0','0'], 100, 116, 139),
   (['s','l','a','t','e','-','6','0','0'], 71, 85, 105),
   (['s','l','a','t','e','-','7','0','0'], 51, 65, 85),
   (['s','l','a','t','e','-','8','0','0'], 30, 41, 59),
   (['s','l','a','t','e','-','9','0','0'], 15, 23, 42),
   (['s','l','a','t','e','-','9','5','0'], 2, 6, 23),
   (['r','e','d','-','5','0','0'], 239, 68, 68),
   (['o','r','a','n','g','e','-','5','0','0'], 249, 115, 22),
   (['a','m','b','e','r','-','4','0','0'], 251, 191, 36),
   (['a','m','b','e','r','-','5','0','0'], 245, 158, 11),
   (['y','e','l','l','o','w','-','5','0','0'], 234, 179, 8),
   (['l','i','m','e','-','5','0','0'], 132, 204, 22),
   (['g','r','e','e','n','-','5','0','0'], 34, 197, 94),
   (['e','m','e','r','a','l','d','-','5','0','0'], 16, 185, 129),
   (['t','e','a','l','-','5','0','0'], 20, 184, 166),
   (['c','y','a','n','-','5','0','0'], 6, 182, 212),
   (['s','k','y','-','5','0','0'], 14, 165, 233),
   (['b','l','u','e','-','5','0','0'], 59, 130, 246),
   (['i','n','d','i','g','o','-','5','0','0'], 99, 102, 241),
   (['v','i','o','l','e','t','-','5','0','0'], 139, 92, 246),
   (['p','u','r','p','l','e','-','5','0','0'], 168, 85, 247),
   (['f','u','c','h','s','i','a','-','5','0','0'], 217, 70, 239),
   (['p','i','n','k','-','5','0','0'], 236, 72, 153),
   (['r','o','s','e','-','5','0','0'], 244, 63, 94),
   (['w','h','i','t','e'], 255, 255, 255),
   (['b','l','a','c','k'], 0, 0, 0)]

/-- `findTailwindColor`: nearest palette entry by Euclidean RGB distance,
strict improvement only (first minimum wins).  Comparing squared distances
is equivalent to comparing `Math.sqrt` values (square root is monotone),
so the `Math.sqrt` of the source is not materialised. -/
def findTailwindColor (rgb : ColorRGB) : List Char :=
  let best := tailwindColors.foldl
    (fun (st : List Char × Option Int) entry =>
      let dist := (rgb.r - entry.2.1) ^ 2 + (rgb.g - entry.2.2.1) ^ 2
        + (rgb.b - entry.2.2.2) ^ 2
      match st.2 with
      | none => (entry.1, some dist)
      | some bd => if dist < bd then (entry.1, some dist) else st)
    (['s','l','a','t','e','-','5','0','0'], none)
  ['b', 'g', '-'] ++ best.1

/-- `getComplementary`: per-channel `255 - c`, hex formatted. -/
def getComplementary (rgb : ColorRGB) : List Char :=
  '#' :: (padStart2 (intToHex (255 - rgb.r)) ++ padStart2 (intToHex (255 - rgb.g))
    ++ padStart2 (intToHex (255 - rgb.b)))

structure ColorFormats where
  hex : List Char
  hex8 : List Char
  rgb : List Char
  rgba : List Char
  hsl : List Char
  hsla : List Char
  tailwind : List Char
  complementary : List Char
  original : ColorRGB

/-- `Math.round(rgb.a * 255)` for the hex8 alpha byte (`NaN` prints `NaN`). -/
def alphaByteHex (a : Option Frac) : List Char :=
  match a with
  | some f => if f.d = 0 then ['N', 'a', 'N'] else padStart2 (intToHex (jsRoundF (fmul f (fof 255))))
  | none => ['N', 'a', 'N']

/-- `colorToFormats` (`detector.ts` lines 757–777). -/
def colorToFormats (input : List Char) : Option ColorFormats :=
  match parseColor input with
  | none => none
  | some rgb =>
    let hsl := rgbToHsl rgb
    let hex6 := '#' :: (padStart2 (intToHex rgb.r) ++ padStart2 (intToHex rgb.g)
      ++ padStart2 (intToHex rgb.b))
    some
      { hex := hex6
        hex8 := hex6 ++ alphaByteHex rgb.a
        rgb := ['r','g','b','('] ++ intToDec rgb.r ++ [',',' '] ++ intToDec rgb.g
          ++ [',',' '] ++ intToDec rgb.b ++ [')']
        rgba := ['r','g','b','a','('] ++ intToDec rgb.r ++ [',',' '] ++ intToDec rgb.g
          ++ [',',' '] ++ intToDec rgb.b ++ [',',' '] ++ fracToChars rgb.a ++ [')']
        hsl := ['h','s','l','('] ++ intToDec hsl.h ++ [',',' '] ++ intToDec hsl.s
          ++ ['%',',',' '] ++ intToDec hsl.l ++ ['%',')']
        hsla := ['h','s','l','a','('] ++ intToDec hsl.h ++ [',',' '] ++ intToDec hsl.s
          ++ ['%',',',' '] ++ intToDec hsl.l ++ ['%',',',' '] ++ fracToChars hsl.a ++ [')']
        tailwind := findTailwindColor rgb
        complementary := getComplementary rgb
        original := rgb }

/-! ## HTML / CSS / JavaScript heuristics -/

/-- Does any suffix of the list satisfy `p`?  (Regex `test` without `^`.) -/
def anySuffix (p : List Char → Bool) : List Char → Bool
  | [] => p []
  | c :: cs => p (c :: cs) || anySuffix p cs

/-- A match of `HTML_TAG_REGEX` = `<`, optional `/`, an ASCII letter, then
(lazily) anything up to a `>`, starting at the head. -/
def htmlTagAtHead : List Char → Bool
  | '<' :: '/' :: c :: rest => isAlphaCh c && rest.contains '>'
  | '<' :: c :: rest => isAlphaCh c && rest.contains '>'
  | _ => false

def htmlTagTest (t : List Char) : Bool := anySuffix htmlTagAtHead t

/-- `FULL_HTML_REGEX = /^[\s\S]*<[a-z][\s\S]*>[\s\S]*$/i`: somewhere a `<`
directly followed by a letter, with a `>` later. -/
def fullHtmlAtHead : List Char → Bool
  | '<' :: c :: rest => isAlphaCh c && rest.contains '>'
  | _ => false

def fullHtmlTest (t : List Char) : Bool := anySuffix fullHtmlAtHead t

/-- Case-insensitive prefix test (`pat` given in lowercase). -/
def startsWithCI : List Char → List Char → Bool
  | [], _ => true
  | _ :: _, [] => false
  | p :: ps, c :: cs => lowerCh c = p && startsWithCI ps cs

/-- Case-insensitive substring test. -/
def containsCI (pat t : List Char) : Bool := anySuffix (startsWithCI pat) t

/-- `/<p[\s>]/i`. -/
def pTagAtHead : List Char → Bool
  | '<' :: c :: d :: _ => lowerCh c = 'p' && (isJsWs d || d = '>')
  | _ => false

/-- `/<h[1-6]/i`. -/
def headingAtHead : List Char → Bool
  | '<' :: c :: d :: _ => lowerCh c = 'h' && (49 ≤ d.toNat && d.toNat ≤ 54)
  | _ => false

/-- `[a-z_-]` with `/i`. -/
def cssIdentCh (c : Char) : Bool := isAlphaCh c || c.toNat = 95 || c.toNat = 45

/-- `/[.#]?[a-z_-]+\s*\{/i`: an identifier run then optional whitespace then
an opening brace (the optional `[.#]` prefix does not affect existence). -/
def cssSelAtHead : List Char → Bool
  | c :: cs =>
    cssIdentCh c && ((cs.dropWhile cssIdentCh).dropWhile isJsWs).head? = some '{'
  | [] => false

def hasCssSelectors (t : List Char) : Bool := anySuffix cssSelAtHead t

/-- `/:\s*[^;]+;/`: a colon whose next semicolon comes after at least one
intervening character. -/
def cssPropAtHead : List Char → Bool
  | ':' :: cs =>
    !(cs.takeWhile fun c => !(c = ';' : Bool)).isEmpty &&
    !(cs.dropWhile fun c => !(c = ';' : Bool)).isEmpty
  | _ => false

def hasCssProperties (t : List Char) : Bool := anySuffix cssPropAtHead t

/-- `MINIFIED_CSS_REGEX = /^[^\n]{200,}.*[{}:;].*$/` (no `/s` flag, so a
match forces the whole string onto one line with a structural character at
index ≥ 200). -/
def minifiedCssTest (t : List Char) : Bool :=
  !t.contains (Char.ofNat 10) &&
  (t.drop 200).any fun c => c = '{' || c = '}' || c = ':' || c = ';'

/-- `MINIFIED_JS_REGEX = /^[^\n]{200,}.*[;{}()].*$/`. -/
def minifiedJsTest (t : List Char) : Bool :=
  !t.contains (Char.ofNat 10) &&
  (t.drop 200).any fun c => c = ';' || c = '{' || c = '}' || c = '(' || c = ')'

/-- `\w`. -/
def wordCh (c : Char) : Bool := isAlphaCh c || isDigitCh c || c.toNat = 95

/-- Head starts with JS whitespace. -/
def headWs (l : List Char) : Bool :=
  match l.head? with
  | some c => isJsWs c
  | none => false

/-- One alternative of
`/function\s*\w*\s*\(|=>\s*\{|const\s+|let\s+|var\s+/` matching at the head. -/
def funcAtHead (s : List Char) : Bool :=
  (("function".data).isPrefixOf s &&
    ((((s.drop 8).dropWhile isJsWs).dropWhile wordCh).dropWhile isJsWs).head? = some '(') ||
  (("=>".data).isPrefixOf s && ((s.drop 2).dropWhile isJsWs).head? = some '{') ||
  (("const".data).isPrefixOf s && headWs (s.drop 5)) ||
  (("let".data).isPrefixOf s && headWs (s.drop 3)) ||
  (("var".data).isPrefixOf s && headWs (s.drop 3))

def hasFunction (t : List Char) : Bool := anySuffix funcAtHead t

/-- One alternative of `/\)\s*\{|\}\s*\)|return\s+|if\s*\(|for\s*\(/`
matching at the head. -/
def jsPatternAtHead (s : List Char) : Bool :=
  (match s with
   | ')' :: cs => (cs.dropWhile isJsWs).head? = some '{'
   | _ => false) ||
  (match s with
   | '}' :: cs => (cs.dropWhile isJsWs).head? = some ')'
   | _ => false) ||
  (("return".data).isPrefixOf s && headWs (s.drop 6)) ||
  (("if".data).isPrefixOf s && ((s.drop 2).dropWhile isJsWs).head? = some '(') ||
  (("for".data).isPrefixOf s && ((s.drop 3).dropWhile isJsWs).head? = some '(')

def hasJsPatterns (t : List Char) : Bool := anySuffix jsPatternAtHead t

/-! ## Detection results and the detector chain -/

inductive DetectedType where
  | json | html | color | timestamp | css | javascript | text | image | base64 | url
  | jwt | number | uuid
deriving DecidableEq

/-- The heterogeneous `parsed` payload, as a tagged sum. -/
inductive ParsedVal where
  | pJson (v : J)
  | pStr (s : List Char)
  | pJwt (header payload : J) (signature : List Char)
  | pNum (base : Nat) (value : Nat)
  | pMs (ms : Nat)

structure DetectionResult where
  type : DetectedType
  confidence : ℚ
  raw : List Char
  parsed : Option ParsedVal

/-- JS property read `obj.key` on a JSON value: objects give the value of
the last member with that key (`JSON.parse` keeps the last duplicate);
anything else gives `undefined` (`none`). -/
def jLookup (v : J) (key : List Char) : Option J :=
  match v with
  | .jobj ms => (ms.reverse.find? fun m => m.1 == key).map (·.2)
  | _ => none

/-- JS truthiness of a property read (`undefined`, `null`, `false`, `0`,
`""` are falsy). -/
def jsTruthy : Option J → Bool
  | none => false
  | some .jnull => false
  | some (.jbool b) => b
  | some (.jnum n) => !(n == 0)
  | some (.jstr s) => !s.isEmpty
  | some (.jarr _) => true
  | some (.jobj _) => true

/-- `detectJwt` (`detector.ts` lines 64–92). -/
def detectJwt (input : List Char) : Option DetectionResult :=
  let trimmed := jsTrim input
  if jwtRegexTest trimmed then
    match splitOnCh '.' trimmed with
    | [p0, p1, p2] =>
      match (atob (b64urlNorm p0)).bind (fun bs => jsonParse (bytesToChars bs)),
            (atob (b64urlNorm p1)).bind (fun bs => jsonParse (bytesToChars bs)) with
      | some header, some payload =>
        if jsTruthy (jLookup header ['a', 'l', 'g']) ||
            jsTruthy (jLookup header ['t', 'y', 'p']) then
          some { type := .jwt, confidence := 1, raw := input,
                 parsed := some (.pJwt header payload p2) }
        else none
      | _, _ => none
    | _ => none
  else none

/-- `detectUuid` (lines 97–109). -/
def detectUuid (input : List Char) : Option DetectionResult :=
  if uuidTest (jsTrim input) then
    some { type := .uuid, confidence := 1, raw := input, parsed := none }
  else none

/-- `detectBase64` (lines 114–145).  The printable test
`printable / decoded.length > 0.8` is expressed integrally:
`5 * printable > 4 * length` for nonempty output, `false` for empty output
(`0/0` is `NaN` in JS and `NaN > 0.8` is false). -/
def isPrintableByte (b : Nat) : Bool :=
  (32 ≤ b && b ≤ 126) || b = 10 || b = 13 || b = 9

def detectBase64 (input : List Char) : Option DetectionResult :=
  let trimmed := jsTrim input
  if trimmed.length < 32 then none
  else if !(base64Test trimmed || base64UrlTest trimmed) then none
  else
    match atob (b64urlNorm trimmed) with
    | some bytes =>
      let printable := (bytes.filter isPrintableByte).length
      if 0 < bytes.length ∧ 4 * bytes.length < 5 * printable then
        some { type := .base64, confidence := 17/20, raw := input,
               parsed := some (.pStr (bytesToChars bytes)) }
      else none
    | none => none

/-- `detectUrlEncoded` (lines 150–176). -/
def detectUrlEncoded (input : List Char) : Option DetectionResult :=
  let trimmed := jsTrim input
  if hasPctHexHex trimmed then
    if 2 ≤ countCh '%' trimmed then
      match decodeURIComp trimmed with
      | some decoded =>
        if decoded ≠ trimmed then
          some { type := .url, confidence := 9/10, raw := input,
                 parsed := some (.pStr decoded) }
        else none
      | none => none
    else none
  else none

/-- `detectNumber` (lines 181–212). -/
def detectNumber (input : List Char) : Option DetectionResult :=
  let trimmed := jsTrim input
  if hexNumTest trimmed then
    some { type := .number, confidence := 1, raw := input,
           parsed := some (.pNum 16 (hexVal (trimmed.drop 2))) }
  else if binNumTest trimmed then
    some { type := .number, confidence := 1, raw := input,
           parsed := some (.pNum 2 (binVal (trimmed.drop 2))) }
  else if octNumTest trimmed then
    some { type := .number, confidence := 1, raw := input,
           parsed := some (.pNum 8 (octVal (trimmed.drop 2))) }
  else none

/-- `detectJson` (lines 217–234). -/
def detectJson (input : List Char) : Option DetectionResult :=
  let trimmed := jsTrim input
  if trimmed.head? = some '{' ∨ trimmed.head? = some '[' then
    match jsonParse trimmed with
    | some v =>
      some { type := .json, confidence := 1, raw := input, parsed := some (.pJson v) }
    | none => none
  else none

/-- `detectColor` (lines 239–255). -/
def detectColor (input : List Char) : Option DetectionResult :=
  let trimmed := jsTrim input
  if hexColorTest trimmed then
    some { type := .color, confidence := 1, raw := input, parsed := none }
  else if (rgbCaptures trimmed).isSome then
    some { type := .color, confidence := 1, raw := input, parsed := none }
  else if (hslCaptures trimmed).isSome then
    some { type := .color, confidence := 1, raw := input, parsed := none }
  else none

/-- `detectTimestamp` (lines 260–279). -/
def detectTimestamp (input : List Char) : Option DetectionResult :=
  let trimmed := jsTrim input
  if epochTest trimmed then
    let num := digitsVal trimmed
    let isSeconds := trimmed.length == 10 && num ≤ 4102444800
    let isMillis := trimmed.length == 13 && num ≤ 4102444800000
    if isSeconds || isMillis then
      some { type := .timestamp, confidence := 9/10, raw := input,
             parsed := some (.pMs (if isMillis then num else num * 1000)) }
    else none
  else none

/-- `detectHtml` (lines 284–311). -/
def detectHtml (input : List Char) : Option DetectionResult :=
  let trimmed := jsTrim input
  if htmlTagTest trimmed then
    let indicators : List Bool :=
      [containsCI "<!doctype".data trimmed, containsCI "<html".data trimmed,
       containsCI "<body".data trimmed, containsCI "<div".data trimmed,
       anySuffix pTagAtHead trimmed, containsCI "<span".data trimmed,
       anySuffix headingAtHead trimmed]
    let score := (indicators.filter id).length
    if 0 < score ∨ fullHtmlTest trimmed then
      some { type := .html, confidence := min (1/2 + score/10 : ℚ) 1, raw := input,
             parsed := none }
    else none
  else none

/-- `detectCss` (lines 316–332). -/
def detectCss (input : List Char) : Option DetectionResult :=
  let trimmed := jsTrim input
  let isMinified := minifiedCssTest trimmed && !trimmed.contains (Char.ofNat 10)
  if hasCssSelectors trimmed && hasCssProperties trimmed then
    some { type := .css, confidence := if isMinified then 9/10 else 7/10, raw := input,
           parsed := none }
  else none

/-- `detectJavaScript` (lines 337–353). -/
def detectJavaScript (input : List Char) : Option DetectionResult :=
  let trimmed := jsTrim input
  let isMinified := minifiedJsTest trimmed && !trimmed.contains (Char.ofNat 10)
  if (hasFunction trimmed || hasJsPatterns trimmed) && isMinified then
    some { type := .javascript, confidence := 4/5, raw := input, parsed := none }
  else none

/-- `detectText` (lines 358–364): the fallback. -/
def detectText (input : List Char) : DetectionResult :=
  { type := .text, confidence := 1/2, raw := input, parsed := none }

/-- `detect` (lines 369–397): the guard for empty (or non-string) input,
then the fixed detector order, first non-null result wins, `text` fallback. -/
def detect (input : List Char) : DetectionResult :=
  if input.isEmpty then detectText []
  else
    match detectJwt input with
    | some r => r
    | none =>
      match detectUuid input with
      | some r => r
      | none =>
        match detectJson input with
        | some r => r
        | none =>
          match detectColor input with
          | some r => r
          | none =>
            match detectTimestamp input with
            | some r => r
            | none =>
              match detectNumber input with
              | some r => r
              | none =>
                match detectUrlEncoded input with
                | some r => r
                | none =>
                  match detectBase64 input with
                  | some r => r
                  | none =>
                    match detectHtml input with
                    | some r => r
                    | none =>
                      match detectCss input with
                      | some r => r
                      | none =>
                        match detectJavaScript input with
                        | some r => r
                        | none => detectText input

/-! ## Text statistics (`textStats`, lines 1009–1019) -/

/-- JS `split(/\s+/)`: pieces between whitespace runs, with an empty leading
piece when the string starts with whitespace and an empty trailing piece
when it ends with one (fuel-based; fuel `length + 1` always suffices). -/
def splitWsPlusF : Nat → List Char → List (List Char)
  | 0, l => [l]
  | f + 1, l =>
    let w := l.takeWhile fun c => !isJsWs c
    let r := l.dropWhile fun c => !isJsWs c
    match r with
    | [] => [w]
    | _ => w :: splitWsPlusF f (r.dropWhile isJsWs)

def splitWsPlus (l : List Char) : List (List Char) := splitWsPlusF (l.length + 1) l

/-- JS `split(/\r?\n/)`: split at each LF, a CR immediately before an LF
belongs to the separator (fuel-based). -/
def splitLinesF : Nat → List Char → List (List Char)
  | 0, l => [l]
  | f + 1, l =>
    let w := l.takeWhile fun c => !(c.toNat = 10 : Bool)
    let r := l.dropWhile fun c => !(c.toNat = 10 : Bool)
    match r with
    | [] => [w]
    | _ :: rest =>
      (if w.getLast? = some (Char.ofNat 13) then w.dropLast else w) :: splitLinesF f rest

def splitLines (l : List Char) : List (List Char) := splitLinesF (l.length + 1) l

/-- `[.!?]`. -/
def isSentCh (c : Char) : Bool := c.toNat = 46 || c.toNat = 33 || c.toNat = 63

/-- Number of maximal runs of characters satisfying `p`; the matches of a
global greedy regex over a one-character class (`/[.!?]+/g` and the word
runs of `/\s+/`) are exactly these runs. -/
def countRunsAux (p : Char → Bool) : Bool → List Char → Nat
  | _, [] => 0
  | inRun, c :: cs =>
    if p c then (if inRun then 0 else 1) + countRunsAux p true cs
    else countRunsAux p false cs

def countRuns (p : Char → Bool) (l : List Char) : Nat := countRunsAux p false l

structure TextStats where
  characters : Nat
  charactersNoSpaces : Nat
  words : Nat
  lines : Nat
  sentences : Nat
deriving DecidableEq

/-- `textStats` (lines 1009–1019).  `input || ''` is the identity on
strings since the embedding is typed; `replace(/\s/g, '')` is the
whitespace filter; the `match(/[.!?]+/g)` count is the sentence-run count. -/
def textStats (input : List Char) : TextStats :=
  let text := input
  { characters := text.length
    charactersNoSpaces := (text.filter fun c => !isJsWs c).length
    words := if !(jsTrim text).isEmpty then (splitWsPlus (jsTrim text)).length else 0
    lines := (splitLines text).length
    sentences :=
      let runs := countRuns isSentCh text
      if runs ≠ 0 then runs else (if !(jsTrim text).isEmpty then 1 else 0) }

/-! ## JWT parsing (`parseJwt`, lines 1161–1190) -/

/-- The result record of `parseJwt`.  `expiresAt`/`issuedAt` hold the
`Date` epoch milliseconds (`none` inside = invalid date from a non-numeric
claim, modelling `new Date(NaN)`); `isExpired` is only set when the `exp`
claim is truthy.  `Date.now()` is the explicit `now` parameter. -/
structure JwtPayload where
  header : J
  payload : J
  signature : List Char
  isExpired : Option Bool
  expiresAt : Option (Option Int)
  issuedAt : Option (Option Int)

/-- Numeric value of a claim; `none` models `NaN` for non-numeric claims
(JS would coerce some of those — never exercised by the claims, see the
`isExpired` comment). -/
def jClaimNum : Option J → Option Int
  | some (.jnum n) => some n
  | _ => none

/-- `parseJwt`.  `payload.exp ? … : …` is a truthiness test, so `exp: 0`
skips the expiry computation; for a truthy non-numeric `exp`,
`now > exp*1000` is a comparison with `NaN`, which is false. -/
def parseJwt (now : Int) (token : List Char) : Option JwtPayload :=
  match splitOnCh '.' (jsTrim token) with
  | [p0, p1, p2] =>
    match (atob (b64urlNorm p0)).bind (fun bs => jsonParse (bytesToChars bs)),
          (atob (b64urlNorm p1)).bind (fun bs => jsonParse (bytesToChars bs)) with
    | some header, some payload =>
      let expClaim := jLookup payload ['e', 'x', 'p']
      let iatClaim := jLookup payload ['i', 'a', 't']
      some
        { header := header
          payload := payload
          signature := p2
          expiresAt := if jsTruthy expClaim then some ((jClaimNum expClaim).map (· * 1000))
                       else none
          isExpired := if jsTruthy expClaim then
                         some (match jClaimNum expClaim with
                               | some e => decide (e * 1000 < now)
                               | none => false)
                       else none
          issuedAt := if jsTruthy iatClaim then some ((jClaimNum iatClaim).map (· * 1000))
                      else none }
    | _, _ => none
  | _ => none

/-! ## Detector result shapes -/

theorem detectJwt_type {s : List Char} {r : DetectionResult} (h : detectJwt s = some r) :
    r.type = .jwt := by
  simp only [detectJwt] at h
  repeat' split at h
  all_goals
    first
      | (injection h with h2; subst h2; rfl)
      | (subst h; rfl)
      | simp_all

theorem detectUuid_type {s : List Char} {r : DetectionResult} (h : detectUuid s = some r) :
    r.type = .uuid := by
  simp only [detectUuid] at h
  repeat' split at h
  all_goals
    first
      | (injection h with h2; subst h2; rfl)
      | (subst h; rfl)
      | simp_all

theorem detectJson_type {s : List Char} {r : DetectionResult} (h : detectJson s = some r) :
    r.type = .json := by
  simp only [detectJson] at h
  repeat' split at h
  all_goals
    first
      | (injection h with h2; subst h2; rfl)
      | (subst h; rfl)
      | simp_all

theorem detectColor_type {s : List Char} {r : DetectionResult} (h : detectColor s = some r) :
    r.type = .color := by
  simp only [detectColor] at h
  repeat' split at h
  all_goals
    first
      | (injection h with h2; subst h2; rfl)
      | (subst h; rfl)
      | simp_all

theorem detectTimestamp_type {s : List Char} {r : DetectionResult}
    (h : detectTimestamp s = some r) : r.type = .timestamp := by
  simp only [detectTimestamp] at h
  repeat' split at h
  all_goals
    first
      | (injection h with h2; subst h2; rfl)
      | (subst h; rfl)
      | simp_all

theorem detectNumber_type {s : List Char} {r : DetectionResult} (h : detectNumber s = some r) :
    r.type = .number := by
  simp only [detectNumber] at h
  repeat' split at h
  all_goals
    first
      | (injection h with h2; subst h2; rfl)
      | (subst h; rfl)
      | simp_all

theorem detectUrlEncoded_type {s : List Char} {r : DetectionResult}
    (h : detectUrlEncoded s = some r) : r.type = .url := by
  simp only [detectUrlEncoded] at h
  repeat' split at h
  all_goals
    first
      | (injection h with h2; subst h2; rfl)
      | (subst h; rfl)
      | simp_all

theorem detectBase64_type {s : List Char} {r : DetectionResult} (h : detectBase64 s = some r) :
    r.type = .base64 := by
  simp only [detectBase64] at h
  repeat' split at h
  all_goals
    first
      | (injection h with h2; subst h2; rfl)
      | (subst h; rfl)
      | simp_all

theorem detectHtml_type {s : List Char} {r : DetectionResult} (h : detectHtml s = some r) :
    r.type = .html := by
  simp only [detectHtml] at h
  repeat' split at h
  all_goals
    first
      | (injection h with h2; subst h2; rfl)
      | (subst h; rfl)
      | simp_all

theorem detectCss_type {s : List Char} {r : DetectionResult} (h : detectCss s = some r) :
    r.type = .css := by
  simp only [detectCss] at h
  repeat' split at h
  all_goals
    first
      | (injection h with h2; subst h2; rfl)
      | (subst h; rfl)
      | simp_all

theorem detectJavaScript_type {s : List Char} {r : DetectionResult}
    (h : detectJavaScript s = some r) : r.type = .javascript := by
  simp only [detectJavaScript] at h
  repeat' split at h
  all_goals
    first
      | (injection h with h2; subst h2; rfl)
      | (subst h; rfl)
      | simp_all

/-- Exhaustive description of `detect`: the result is the fallback, or comes
from exactly one detector. -/
theorem detect_cases (s : List Char) :
    detect s = detectText [] ∨ detect s = detectText s ∨
    ∃ r, (detectJwt s = some r ∨ detectUuid s = some r ∨ detectJson s = some r ∨
      detectColor s = some r ∨ detectTimestamp s = some r ∨ detectNumber s = some r ∨
      detectUrlEncoded s = some r ∨ detectBase64 s = some r ∨ detectHtml s = some r ∨
      detectCss s = some r ∨ detectJavaScript s = some r) ∧ detect s = r := by
  unfold detect
  split
  · exact .inl rfl
  · split
    · rename_i r h; exact .inr (.inr ⟨r, .inl h, rfl⟩)
    split
    · rename_i r h; exact .inr (.inr ⟨r, .inr (.inl h), rfl⟩)
    split
    · rename_i r h; exact .inr (.inr ⟨r, .inr (.inr (.inl h)), rfl⟩)
    split
    · rename_i r h; exact .inr (.inr ⟨r, .inr (.inr (.inr (.inl h))), rfl⟩)
    split
    · rename_i r h; exact .inr (.inr ⟨r, .inr (.inr (.inr (.inr (.inl h)))), rfl⟩)
    split
    · rename_i r h; exact .inr (.inr ⟨r, .inr (.inr (.inr (.inr (.inr (.inl h))))), rfl⟩)
    split
    · rename_i r h
      exact .inr (.inr ⟨r, .inr (.inr (.inr (.inr (.inr (.inr (.inl h)))))), rfl⟩)
    split
    · rename_i r h
      exact .inr (.inr ⟨r, .inr (.inr (.inr (.inr (.inr (.inr (.inr (.inl h))))))), rfl⟩)
    split
    · rename_i r h
      exact .inr (.inr ⟨r,
        .inr (.inr (.inr (.inr (.inr (.inr (.inr (.inr (.inl h)))))))), rfl⟩)
    split
    · rename_i r h
      exact .inr (.inr ⟨r,
        .inr (.inr (.inr (.inr (.inr (.inr (.inr (.inr (.inr (.inl h))))))))), rfl⟩)
    split
    · rename_i r h
      exact .inr (.inr ⟨r,
        .inr (.inr (.inr (.inr (.inr (.inr (.inr (.inr (.inr (.inr h))))))))), rfl⟩)
    · exact .inr (.inl rfl)

/-! ## Lemmas about the detector chain -/

theorem detect_of_jwt {s : List Char} {r : DetectionResult} (h : detectJwt s = some r) :
    detect s = r := by
  have hne : s ≠ [] := by
    intro he
    subst he
    rw [show detectJwt [] = none from rfl] at h
    exact absurd h (by simp)
  simp only [detect, h]
  rw [if_neg (by simpa using hne)]

/-- A string whose trimmed form passes `JWT_REGEX` contains a dot, so both
base64 character classes reject it and `detectBase64` returns `null`. -/
theorem detectBase64_none_of_jwtRegex {s : List Char}
    (h : jwtRegexTest (jsTrim s) = true) : detectBase64 s = none := by
  have hdot : '.' ∈ jsTrim s := by
    unfold jwtRegexTest at h
    split at h
    · rename_i heq
      exact mem_of_splitOnCh_three '.' _ _ _ _ heq
    · exact absurd h (by simp)
  have h64 : base64Test (jsTrim s) = false := by
    rw [base64Test]
    by_contra hb
    simp only [Bool.not_eq_false, Bool.and_eq_true, List.all_eq_true] at hb
    have := hb.2 '.' hdot
    exact absurd this (by decide)
  have hurl : base64UrlTest (jsTrim s) = false := by
    rw [base64UrlTest]
    by_contra hb
    simp only [Bool.not_eq_false, Bool.and_eq_true, List.all_eq_true] at hb
    have hsplit := List.takeWhile_append_dropWhile
      (p := fun c => !(c.toNat = 61 : Bool)) (l := jsTrim s)
    rw [← hsplit] at hdot
    rcases List.mem_append.1 hdot with hm | hm
    · have := hb.1.2 '.' hm
      exact absurd this (by decide)
    · have := hb.2 '.' hm
      exact absurd this (by decide)
  simp only [detectBase64]
  split
  · rfl
  · rw [h64, hurl]
    simp

theorem splitOnCh_no_sep {sep : Char} {l : List Char} (h : sep ∉ l) :
    splitOnCh sep l = [l] := by
  induction l with
  | nil => rfl
  | cons c cs ih =>
    simp only [splitOnCh]
    rw [if_neg (by intro he; exact h (he ▸ List.mem_cons_self c cs))]
    rw [ih (fun hm => h (List.mem_cons_of_mem c hm))]

theorem digit_not_mem {t : List Char} (ht : t.all isDigitCh = true) {c : Char}
    (hc : isDigitCh c = false) : c ∉ t := by
  intro hm
  rw [List.all_eq_true] at ht
  exact absurd (ht c hm) (by simp [hc])

theorem lowerCh_digit {c : Char} (h : isDigitCh c = true) : lowerCh c = c := by
  simp only [isDigitCh, Bool.and_eq_true, decide_eq_true_eq] at h
  simp only [lowerCh]
  rw [if_neg (by omega)]

/-- All detectors that precede `detectTimestamp` reject an all-digit
trimmed input (of length at least 3). -/
theorem digits_early_none {s : List Char} (ht : (jsTrim s).all isDigitCh = true)
    (hlen : 3 ≤ (jsTrim s).length) :
    detectJwt s = none ∧ detectUuid s = none ∧ detectJson s = none ∧
      detectColor s = none := by
  have hdigit : ∀ c ∈ jsTrim s, isDigitCh c = true := List.all_eq_true.1 ht
  obtain ⟨c1, t1, he1⟩ : ∃ c1 t1, jsTrim s = c1 :: t1 := by
    cases h : jsTrim s with
    | nil => rw [h] at hlen; simp at hlen
    | cons a b => exact ⟨a, b, rfl⟩
  obtain ⟨c2, t2, he2⟩ : ∃ c2 t2, t1 = c2 :: t2 := by
    cases h : t1 with
    | nil => rw [he1, h] at hlen; simp at hlen
    | cons a b => exact ⟨a, b, rfl⟩
  obtain ⟨c3, t3, he3⟩ : ∃ c3 t3, t2 = c3 :: t3 := by
    cases h : t2 with
    | nil => rw [he1, he2, h] at hlen; simp at hlen
    | cons a b => exact ⟨a, b, rfl⟩
  have hd1 : isDigitCh c1 = true := hdigit c1 (by rw [he1]; simp)
  have hd1b : 48 ≤ c1.toNat ∧ c1.toNat ≤ 57 := by
    simpa [isDigitCh, Bool.and_eq_true, decide_eq_true_eq] using hd1
  refine ⟨?_, ?_, ?_, ?_⟩
  · have hsplit : splitOnCh '.' (jsTrim s) = [jsTrim s] :=
      splitOnCh_no_sep (digit_not_mem ht (by decide))
    have hre : jwtRegexTest (jsTrim s) = false := by
      rw [jwtRegexTest, hsplit]
    simp [detectJwt, hre]
  · have hsplit : splitOnCh '-' (jsTrim s) = [jsTrim s] :=
      splitOnCh_no_sep (digit_not_mem ht (by decide))
    have hre : uuidTest (jsTrim s) = false := by
      rw [uuidTest, hsplit]
    simp [detectUuid, hre]
  · simp only [detectJson]
    rw [if_neg]
    rw [he1]
    simp only [List.head?_cons, Option.some_inj]
    push_neg
    constructor
    · exact char_ne_of_toNat_ne (by rw [show ('{').toNat = 123 from rfl]; omega)
    · exact char_ne_of_toNat_ne (by rw [show ('[').toNat = 91 from rfl]; omega)
  · have hhex : hexColorTest (jsTrim s) = false := by
      rw [he1, hexColorTest]
      have hne : ¬ c1 = '#' :=
        char_ne_of_toNat_ne (by rw [show ('#').toNat = 35 from rfl]; omega)
      simp [hne]
    have hrgb : rgbCaptures (jsTrim s) = none := by
      rw [he1, he2, he3]
      simp only [rgbCaptures]
      rw [if_neg]
      intro hcon
      have h1 := hcon.1
      rw [lowerCh_digit hd1] at h1
      exact absurd (char_eq_toNat _ _ h1)
        (by rw [show ('r').toNat = 114 from rfl]; omega)
    have hhsl : hslCaptures (jsTrim s) = none := by
      rw [he1, he2, he3]
      simp only [hslCaptures]
      rw [if_neg]
      intro hcon
      have h1 := hcon.1
      rw [lowerCh_digit hd1] at h1
      exact absurd (char_eq_toNat _ _ h1)
        (by rw [show ('h').toNat = 104 from rfl]; omega)
    simp [detectColor, hhex, hrgb, hhsl]

/-- The spec's timestamp condition (claim C4), written from the claim text:
a string of 10 or 13 ASCII digits whose value, as seconds (10 digits) or
milliseconds (13 digits), lies within 4102444800 seconds of the epoch. -/
def timestampCondB (t : List Char) : Bool :=
  t.all isDigitCh &&
    ((t.length == 10 && digitsVal t ≤ 4102444800) ||
     (t.length == 13 && digitsVal t ≤ 4102444800000))

theorem detectTimestamp_isSome (s : List Char) :
    (detectTimestamp s).isSome = timestampCondB (jsTrim s) := by
  simp only [detectTimestamp]
  split
  next hep =>
    simp only [epochTest, Bool.and_eq_true, decide_eq_true_eq] at hep
    split
    next hin =>
      simp only [Option.isSome_some]
      symm
      simp only [timestampCondB, Bool.and_eq_true, Bool.or_eq_true] at hin ⊢
      exact ⟨hep.2, by simpa using hin⟩
    next hin =>
      simp only [Option.isSome_none]
      symm
      simp only [timestampCondB]
      rw [Bool.and_eq_false_iff]
      right
      simp only [Bool.or_eq_true, Bool.and_eq_true] at hin
      rw [Bool.or_eq_false_iff]
      constructor <;> rw [Bool.and_eq_false_iff]
      · by_cases h10 : ((jsTrim s).length == 10) = true
        · right
          simp only [decide_eq_false_iff_not]
          intro hv
          exact hin (Or.inl ⟨h10, by simpa using hv⟩)
        · exact Or.inl (by simpa using h10)
      · by_cases h13 : ((jsTrim s).length == 13) = true
        · right
          simp only [decide_eq_false_iff_not]
          intro hv
          exact hin (Or.inr ⟨h13, by simpa using hv⟩)
        · exact Or.inl (by simpa using h13)
  next hep =>
    simp only [Option.isSome_none]
    symm
    simp only [timestampCondB]
    rw [Bool.and_eq_false_iff]
    by_cases hall : (jsTrim s).all isDigitCh = true
    · right
      have hlen : ¬ (10 ≤ (jsTrim s).length ∧ (jsTrim s).length ≤ 13) := by
        intro hc
        apply hep
        simp only [epochTest, Bool.and_eq_true, decide_eq_true_eq]
        exact ⟨⟨hc.1, hc.2⟩, hall⟩
      rw [Bool.or_eq_false_iff]
      constructor <;> rw [Bool.and_eq_false_iff] <;> left <;>
        simp only [beq_eq_false_iff_ne, ne_eq] <;> omega
    · exact Or.inl (by simpa using hall)

theorem detect_of_timestamp {s : List Char} {r : DetectionResult}
    (h1 : detectJwt s = none) (h2 : detectUuid s = none)
    (h3 : detectJson s = none) (h4 : detectColor s = none)
    (h5 : detectTimestamp s = some r) : detect s = r := by
  have hne : ¬ s.isEmpty := by
    intro he
    rw [List.isEmpty_iff] at he
    subst he
    exact Option.noConfusion (h5.symm.trans (by rfl))
  simp only [detect, h1, h2, h3, h4, h5]
  rw [if_neg hne]

theorem detect_type_timestamp {s : List Char} (h : (detect s).type = .timestamp) :
    detectTimestamp s = some (detect s) := by
  rcases detect_cases s with h0 | h0 | ⟨r, hsrc, hr⟩
  · rw [h0] at h; exact absurd h (by decide)
  · rw [h0] at h; simp [detectText] at h
  · rw [hr] at h ⊢
    rcases hsrc with h1|h1|h1|h1|h1|h1|h1|h1|h1|h1|h1
    all_goals first
      | exact h1
      | (rw [detectJwt_type h1] at h; exact absurd h (by decide))
      | (rw [detectUuid_type h1] at h; exact absurd h (by decide))
      | (rw [detectJson_type h1] at h; exact absurd h (by decide))
      | (rw [detectColor_type h1] at h; exact absurd h (by decide))
      | (rw [detectNumber_type h1] at h; exact absurd h (by decide))
      | (rw [detectUrlEncoded_type h1] at h; exact absurd h (by decide))
      | (rw [detectBase64_type h1] at h; exact absurd h (by decide))
      | (rw [detectHtml_type h1] at h; exact absurd h (by decide))
      | (rw [detectCss_type h1] at h; exact absurd h (by decide))
      | (rw [detectJavaScript_type h1] at h; exact absurd h (by decide))

theorem detect_type_base64 {s : List Char} (h : (detect s).type = .base64) :
    detectBase64 s = some (detect s) := by
  rcases detect_cases s with h0 | h0 | ⟨r, hsrc, hr⟩
  · rw [h0] at h; exact absurd h (by decide)
  · rw [h0] at h; simp [detectText] at h
  · rw [hr] at h ⊢
    rcases hsrc with h1|h1|h1|h1|h1|h1|h1|h1|h1|h1|h1
    all_goals first
      | exact h1
      | (rw [detectJwt_type h1] at h; exact absurd h (by decide))
      | (rw [detectUuid_type h1] at h; exact absurd h (by decide))
      | (rw [detectJson_type h1] at h; exact absurd h (by decide))
      | (rw [detectColor_type h1] at h; exact absurd h (by decide))
      | (rw [detectTimestamp_type h1] at h; exact absurd h (by decide))
      | (rw [detectNumber_type h1] at h; exact absurd h (by decide))
      | (rw [detectUrlEncoded_type h1] at h; exact absurd h (by decide))
      | (rw [detectHtml_type h1] at h; exact absurd h (by decide))
      | (rw [detectCss_type h1] at h; exact absurd h (by decide))
      | (rw [detectJavaScript_type h1] at h; exact absurd h (by decide))

theorem detect_type_url {s : List Char} (h : (detect s).type = .url) :
    detectUrlEncoded s = some (detect s) := by
  rcases detect_cases s with h0 | h0 | ⟨r, hsrc, hr⟩
  · rw [h0] at h; exact absurd h (by decide)
  · rw [h0] at h; simp [detectText] at h
  · rw [hr] at h ⊢
    rcases hsrc with h1|h1|h1|h1|h1|h1|h1|h1|h1|h1|h1
    all_goals first
      | exact h1
      | (rw [detectJwt_type h1] at h; exact absurd h (by decide))
      | (rw [detectUuid_type h1] at h; exact absurd h (by decide))
      | (rw [detectJson_type h1] at h; exact absurd h (by decide))
      | (rw [detectColor_type h1] at h; exact absurd h (by decide))
      | (rw [detectTimestamp_type h1] at h; exact absurd h (by decide))
      | (rw [detectNumber_type h1] at h; exact absurd h (by decide))
      | (rw [detectBase64_type h1] at h; exact absurd h (by decide))
      | (rw [detectHtml_type h1] at h; exact absurd h (by decide))
      | (rw [detectCss_type h1] at h; exact absurd h (by decide))
      | (rw [detectJavaScript_type h1] at h; exact absurd h (by decide))

theorem detect_type_color {s : List Char} (h : (detect s).type = .color) :
    detectColor s = some (detect s) := by
  rcases detect_cases s with h0 | h0 | ⟨r, hsrc, hr⟩
  · rw [h0] at h; exact absurd h (by decide)
  · rw [h0] at h; simp [detectText] at h
  · rw [hr] at h ⊢
    rcases hsrc with h1|h1|h1|h1|h1|h1|h1|h1|h1|h1|h1
    all_goals first
      | exact h1
      | (rw [detectJwt_type h1] at h; exact absurd h (by decide))
      | (rw [detectUuid_type h1] at h; exact absurd h (by decide))
      | (rw [detectJson_type h1] at h; exact absurd h (by decide))
      | (rw [detectTimestamp_type h1] at h; exact absurd h (by decide))
      | (rw [detectNumber_type h1] at h; exact absurd h (by decide))
      | (rw [detectUrlEncoded_type h1] at h; exact absurd h (by decide))
      | (rw [detectBase64_type h1] at h; exact absurd h (by decide))
      | (rw [detectHtml_type h1] at h; exact absurd h (by decide))
      | (rw [detectCss_type h1] at h; exact absurd h (by decide))
      | (rw [detectJavaScript_type h1] at h; exact absurd h (by decide))

/-! ## Claim theorems -/

/-- C4: `detect` classifies an input as `timestamp` exactly when its trim is a
string of 10 or 13 ASCII digits whose value, as seconds (10 digits) or
milliseconds (13 digits), lies within 4102444800 seconds of the epoch; the
`parsed` field is the epoch in milliseconds (a 10-digit value is multiplied
by 1000); `detect "1700000000"` and `detect "1700000000000"` both parse to
1700000000000 ms, and `"99999999999999"` does not classify as timestamp. -/
theorem c4_timestamp_detection (s : List Char) :
    ((detect s).type = .timestamp ↔ timestampCondB (jsTrim s) = true) ∧
    ((detect s).type = .timestamp →
      ∃ n, (detect s).parsed = some (.pMs n) ∧
        (((jsTrim s).length = 10 ∧ n = digitsVal (jsTrim s) * 1000) ∨
         ((jsTrim s).length = 13 ∧ n = digitsVal (jsTrim s)))) ∧
    (detect ("1700000000".data)).parsed = some (.pMs 1700000000000) ∧
    (detect ("1700000000000".data)).parsed = some (.pMs 1700000000000) ∧
    (detect ("99999999999999".data)).type ≠ .timestamp := by
  refine ⟨⟨?_, ?_⟩, ?_, by rfl, by rfl, by decide⟩
  · intro h
    have ht := detect_type_timestamp h
    have hs : (detectTimestamp s).isSome = true := by rw [ht]; rfl
    rw [detectTimestamp_isSome] at hs
    exact hs
  · intro hc
    have hall : (jsTrim s).all isDigitCh = true := by
      simp only [timestampCondB, Bool.and_eq_true] at hc
      exact hc.1
    have hne3 : 3 ≤ (jsTrim s).length := by
      simp only [timestampCondB, Bool.and_eq_true, Bool.or_eq_true] at hc
      rcases hc.2 with ⟨h10, _⟩ | ⟨h13, _⟩
      · have : (jsTrim s).length = 10 := by simpa using h10
        omega
      · have : (jsTrim s).length = 13 := by simpa using h13
        omega
    obtain ⟨hjwt, huuid, hjson, hcolor⟩ := digits_early_none hall hne3
    have hs : (detectTimestamp s).isSome = true := by
      rw [detectTimestamp_isSome]; exact hc
    obtain ⟨r, hr⟩ := Option.isSome_iff_exists.1 hs
    rw [detect_of_timestamp hjwt huuid hjson hcolor hr]
    exact detectTimestamp_type hr
  · intro h
    have ht := detect_type_timestamp h
    simp only [detectTimestamp] at ht
    split at ht
    next hep =>
      split at ht
      next hin =>
        have hd := (Option.some_inj.1 ht).symm
        by_cases h13 : ((jsTrim s).length == 13 &&
            decide (digitsVal (jsTrim s) ≤ 4102444800000)) = true
        · refine ⟨digitsVal (jsTrim s), ?_, Or.inr ⟨?_, rfl⟩⟩
          · rw [hd]
            simp only [if_pos h13]
          · rw [Bool.and_eq_true] at h13
            simpa using h13.1
        · refine ⟨digitsVal (jsTrim s) * 1000, ?_, Or.inl ⟨?_, rfl⟩⟩
          · rw [hd]
            simp only [if_neg h13]
          · rw [Bool.or_eq_true] at hin
            rcases hin with h10 | hm
            · rw [Bool.and_eq_true] at h10
              simpa using h10.1
            · exact absurd hm h13
      next hin => exact Option.noConfusion ht
    next hep => exact Option.noConfusion ht

theorem c4_timestamp_detection_witness :
    timestampCondB (jsTrim ("1700000000".data)) = true ∧
    (detect ("1700000000".data)).type = DetectedType.timestamp :=
  ⟨by decide, (c4_timestamp_detection ("1700000000".data)).1.mpr (by decide)⟩

theorem length_dropWhile_le (p : Char → Bool) (l : List Char) :
    (l.dropWhile p).length ≤ l.length := by
  induction l with
  | nil => simp
  | cons c cs ih =>
    simp only [List.dropWhile]
    split
    · simp only [List.length_cons]
      omega
    · simp

theorem jsTrim_length_le (l : List Char) : (jsTrim l).length ≤ l.length := by
  simp only [jsTrim, List.length_reverse]
  calc ((l.dropWhile isJsWs).reverse.dropWhile isJsWs).length
      ≤ (l.dropWhile isJsWs).reverse.length := length_dropWhile_le _ _
    _ = (l.dropWhile isJsWs).length := List.length_reverse _
    _ ≤ l.length := length_dropWhile_le _ _

/-- The spec's base64 condition (claim C5), written from the claim text with
the code's ratio test: length at least 32, base64 or base64url character
class, successful decode, and strictly more than 80 percent printable
ASCII/whitespace bytes in the decode. -/
def b64CondsB (t : List Char) : Bool :=
  (32 ≤ t.length) && (base64Test t || base64UrlTest t) &&
    (match atob (b64urlNorm t) with
     | some bytes =>
       (0 < bytes.length) && (4 * bytes.length < 5 * (bytes.filter isPrintableByte).length)
     | none => false)

theorem detectBase64_isSome (s : List Char) :
    (detectBase64 s).isSome = b64CondsB (jsTrim s) := by
  simp only [detectBase64, b64CondsB]
  split
  next hlt =>
    simp only [Option.isSome_none]
    symm
    rw [Bool.and_eq_false_iff]
    left
    rw [Bool.and_eq_false_iff]
    left
    simpa using hlt
  next hlt =>
    split
    next hcls =>
      simp only [Option.isSome_none]
      symm
      rw [Bool.and_eq_false_iff]
      left
      rw [Bool.and_eq_false_iff]
      right
      rw [Bool.not_eq_true'] at hcls
      exact hcls
    next hcls =>
      have h32 : (decide (32 ≤ (jsTrim s).length)) = true := by
        simp only [decide_eq_true_eq]
        omega
      have hcl : (base64Test (jsTrim s) || base64UrlTest (jsTrim s)) = true := by
        rcases Bool.eq_false_or_eq_true
            (base64Test (jsTrim s) || base64UrlTest (jsTrim s)) with ht | hf
        · exact ht
        · exact absurd (by rw [hf]; rfl) hcls
      rw [h32, hcl]
      split
      next bytes hb =>
        split
        next hratio =>
          simp only [Option.isSome_some]
          symm
          simp only [Bool.true_and, Bool.and_eq_true, decide_eq_true_eq]
          exact hratio
        next hratio =>
          simp only [Option.isSome_none]
          symm
          simp only [Bool.true_and, Bool.and_eq_false_iff, decide_eq_false_iff_not]
          rw [Decidable.not_and_iff_or_not] at hratio
          rcases hratio with h | h
          · exact Or.inl h
          · exact Or.inr h
      next hb =>
        simp only [Option.isSome_none, Bool.true_and]

theorem detect_of_base64 {s : List Char} {r : DetectionResult}
    (h1 : detectJwt s = none) (h2 : detectUuid s = none)
    (h3 : detectJson s = none) (h4 : detectColor s = none)
    (h5 : detectTimestamp s = none) (h6 : detectNumber s = none)
    (h7 : detectUrlEncoded s = none) (h8 : detectBase64 s = some r) :
    detect s = r := by
  have hne : ¬ s.isEmpty := by
    intro he
    rw [List.isEmpty_iff] at he
    subst he
    exact Option.noConfusion (h8.symm.trans (by rfl))
  simp only [detect, h1, h2, h3, h4, h5, h6, h7, h8]
  rw [if_neg hne]

/-- C5 (amended): the base64 conditions — trimmed length at least 32, base64
or base64url character class, successful decode, strictly more than 80
percent printable decoded bytes — are necessary for a `base64`
classification, and sufficient whenever no earlier detector in the chain
matches; a 20-character string never classifies as `base64`. The claim's
unconditional "exactly when" is refuted by `c5_base64_not_iff`. -/
theorem c5_base64_detection (s : List Char) :
    ((detect s).type = .base64 → b64CondsB (jsTrim s) = true) ∧
    (b64CondsB (jsTrim s) = true →
      detectJwt s = none → detectUuid s = none → detectJson s = none →
      detectColor s = none → detectTimestamp s = none → detectNumber s = none →
      detectUrlEncoded s = none → (detect s).type = .base64) ∧
    (s.length = 20 → (detect s).type ≠ .base64) := by
  refine ⟨?_, ?_, ?_⟩
  · intro h
    have ht := detect_type_base64 h
    have hs : (detectBase64 s).isSome = true := by rw [ht]; rfl
    rw [detectBase64_isSome] at hs
    exact hs
  · intro hc h1 h2 h3 h4 h5 h6 h7
    have hs : (detectBase64 s).isSome = true := by
      rw [detectBase64_isSome]; exact hc
    obtain ⟨r, hr⟩ := Option.isSome_iff_exists.1 hs
    rw [detect_of_base64 h1 h2 h3 h4 h5 h6 h7 hr]
    exact detectBase64_type hr
  · intro hlen h
    have ht := detect_type_base64 h
    have hs : (detectBase64 s).isSome = true := by rw [ht]; rfl
    rw [detectBase64_isSome] at hs
    simp only [b64CondsB, Bool.and_eq_true, decide_eq_true_eq] at hs
    have h32 : 32 ≤ (jsTrim s).length := hs.1.1
    have := jsTrim_length_le s
    omega

/-- C5 refutation of the claimed equivalence: a 32-character string meeting
all the base64 conditions is classified as `number`, because the hex-literal
detector precedes the base64 detector in the chain. -/
theorem c5_base64_not_iff :
    b64CondsB (jsTrim ("0xdaa0daa0daa0daa0daa0daa0daa0da".data)) = true ∧
    (detect ("0xdaa0daa0daa0daa0daa0daa0daa0da".data)).type =
      DetectedType.number := by
  constructor <;> decide

theorem c5_base64_detection_witness :
    b64CondsB (jsTrim ("aGVsbG8gd29ybGQgaGVsbG8gd29ybGQh".data)) = true ∧
    (detect ("aGVsbG8gd29ybGQgaGVsbG8gd29ybGQh".data)).type =
      DetectedType.base64 :=
  ⟨by decide,
   (c5_base64_detection ("aGVsbG8gd29ybGQgaGVsbG8gd29ybGQh".data)).2.1
     (by decide) (by rfl) (by rfl) (by rfl) (by rfl) (by rfl) (by rfl) (by rfl)⟩

/-- C1: `detect` is total — it is a function returning a `DetectionResult`
for every input — and on the empty string it returns a `text` result with
confidence 0.5. -/
theorem c1_detect_total :
    (∀ s : List Char, ∃ r : DetectionResult, detect s = r) ∧
    (detect []).type = DetectedType.text ∧ (detect []).confidence = 1/2 := by
  refine ⟨fun s => ⟨detect s, rfl⟩, by rfl, by rfl⟩

/-- C2: detector order is the tie-break — whenever the JWT detector's
conditions hold (so `detectJwt` returns a result), `detect` returns that
result, its type is `jwt`, and it is never `base64`. Together with
`detectBase64_none_of_jwtRegex` (the base64 character classes exclude the
dots a JWT needs, so the claim's two hypotheses never hold at once), this
settles the claim: any input matching the JWT shape classifies as `jwt`,
never as `base64`. -/
theorem c2_jwt_precedes_base64 (s : List Char) (r : DetectionResult)
    (hjwt : detectJwt s = some r) :
    detect s = r ∧ r.type = DetectedType.jwt ∧
      (detect s).type ≠ DetectedType.base64 := by
  refine ⟨detect_of_jwt hjwt, detectJwt_type hjwt, ?_⟩
  rw [detect_of_jwt hjwt, detectJwt_type hjwt]
  decide

theorem c2_jwt_precedes_base64_witness :
    detectJwt ("eyJhbGciOiJIUzI1NiIsInR5cCI6IkpXVCJ9.e30.x".data) =
      some (detect ("eyJhbGciOiJIUzI1NiIsInR5cCI6IkpXVCJ9.e30.x".data)) ∧
    (detect ("eyJhbGciOiJIUzI1NiIsInR5cCI6IkpXVCJ9.e30.x".data)).type =
      DetectedType.jwt :=
  have h : detectJwt ("eyJhbGciOiJIUzI1NiIsInR5cCI6IkpXVCJ9.e30.x".data) =
      some (detect ("eyJhbGciOiJIUzI1NiIsInR5cCI6IkpXVCJ9.e30.x".data)) := by rfl
  ⟨h, by rw [(c2_jwt_precedes_base64 _ _ h).1, (c2_jwt_precedes_base64 _ _ h).2.1]⟩

/-- C3: JSON round-trip — for every JSON value `x`, minifying the pretty
print of `x` parses back to a value structurally (deep) equal to `x`, and
equals the direct minification of `x` (`minify(pretty(x)) == minify(x)`). -/
theorem c3_json_roundtrip (x : J) :
    jsonParse (minifyJsonStr (prettyPrintJsonObj x)) = some x ∧
    minifyJsonStr (prettyPrintJsonObj x) = minifyJsonObj x := by
  have hp : jsonParse (prettyPrintJsonObj x) = some x := jsonParse_printJ true x
  constructor
  · simp only [minifyJsonStr, hp]
    exact jsonParse_printJ false x
  · simp only [minifyJsonStr, hp, minifyJsonObj]

theorem countCh_cons_self (c : Char) (l : List Char) :
    countCh c (c :: l) = countCh c l + 1 := by
  simp [countCh, List.filter_cons]

theorem countCh_cons_ne {x c : Char} (h : x ≠ c) (l : List Char) :
    countCh c (x :: l) = countCh c l := by
  simp [countCh, List.filter_cons, h]

theorem hexCh_ne_pct {c : Char} (h : isHexCh c = true) : c ≠ '%' := by
  apply char_ne_of_toNat_ne
  rw [show ('%').toNat = 37 from rfl]
  simp only [isHexCh, isDigitCh, Bool.or_eq_true, Bool.and_eq_true,
    decide_eq_true_eq] at h
  omega

theorem countPctXX_cons_ne {c : Char} {cs : List Char} (hc : c ≠ '%') :
    countPctXX (c :: cs) = countPctXX cs := by
  rw [countPctXX.eq_def]
  split
  next h1 h2 rest heq =>
    injection heq with e1 e2
    exact absurd e1 hc
  next =>
    rename_i hnc heq
    injection heq with e1 e2
    rw [e2]
  next heq => exact List.noConfusion heq

theorem hexPair_hex {h1 h2 : Char} {b : Nat} (h : hexPair h1 h2 = some b) :
    isHexCh h1 = true ∧ isHexCh h2 = true := by
  simp only [hexPair] at h
  split at h
  next hx =>
    rw [Bool.and_eq_true] at hx
    exact hx
  next => exact Option.noConfusion h

theorem countPctXX_pct {h1 h2 : Char} (rest : List Char)
    (hx1 : isHexCh h1 = true) (hx2 : isHexCh h2 = true) :
    countPctXX ('%' :: h1 :: h2 :: rest) = 1 + countPctXX rest := by
  rw [countPctXX.eq_def]
  split
  next h1' h2' rest' heq =>
    injection heq with a b
    injection b with c dd
    injection dd with e ff
    subst c; subst e; subst ff
    rw [if_pos (by rw [hx1, hx2]; rfl)]
  next =>
    rename_i hnc heq
    injection heq with e1 e2
    exact ((hnc h1 h2 rest e1.symm e2.symm)).elim
  next heq => exact List.noConfusion heq

theorem countCh_pct {h1 h2 : Char} (rest : List Char)
    (hx1 : isHexCh h1 = true) (hx2 : isHexCh h2 = true) :
    countCh '%' ('%' :: h1 :: h2 :: rest) = 1 + countCh '%' rest := by
  rw [countCh_cons_self, countCh_cons_ne (hexCh_ne_pct hx1),
    countCh_cons_ne (hexCh_ne_pct hx2)]
  omega

theorem opt_of_ite_none {α : Type} {P : Prop} [Decidable P] {x : Option α} {d : α}
    (h : (if P then x else none) = some d) : x = some d := by
  split at h
  · exact h
  · exact Option.noConfusion h

theorem decode_countPct : ∀ (f : Nat) (t d : List Char),
    decodeURICompF f t = some d → countPctXX t = countCh '%' t := by
  intro f
  induction f with
  | zero =>
    intro t d h
    simp only [decodeURICompF] at h
    exact Option.noConfusion h
  | succ f ih =>
    intro t d h
    rw [decodeURICompF.eq_def] at h
    split at h
    · exfalso; omega
    · rfl
    · rename_i fuel h1 h2 rest heq
      have hf : fuel = f := by omega
      subst hf
      split at h
      · exact Option.noConfusion h
      · rename_i b hhp
        obtain ⟨hx1, hx2⟩ := hexPair_hex hhp
        rw [countPctXX_pct rest hx1 hx2, countCh_pct rest hx1 hx2]
        split at h
        · rw [Option.map_eq_some'] at h
          obtain ⟨d', hd', -⟩ := h
          rw [ih rest d' hd']
        split at h
        · split at h
          all_goals try exact Option.noConfusion h
          rename_i h3 h4 rest2
          split at h
          all_goals try exact Option.noConfusion h
          rename_i b2 hhp2
          obtain ⟨hx3, hx4⟩ := hexPair_hex hhp2
          replace h := opt_of_ite_none h
          rw [Option.map_eq_some'] at h
          obtain ⟨d', hd', -⟩ := h
          rw [countPctXX_pct rest2 hx3 hx4, countCh_pct rest2 hx3 hx4,
            ih rest2 d' hd']
        split at h
        · split at h
          all_goals try exact Option.noConfusion h
          rename_i h3 h4 h5 h6 rest2
          split at h
          all_goals try exact Option.noConfusion h
          rename_i b2 b3 hhp2 hhp3
          obtain ⟨hx3, hx4⟩ := hexPair_hex hhp2
          obtain ⟨hx5, hx6⟩ := hexPair_hex hhp3
          replace h := opt_of_ite_none h
          rw [Option.map_eq_some'] at h
          obtain ⟨d', hd', -⟩ := h
          rw [countPctXX_pct _ hx3 hx4, countCh_pct _ hx3 hx4,
            countPctXX_pct rest2 hx5 hx6, countCh_pct rest2 hx5 hx6,
            ih rest2 d' hd']
        split at h
        · split at h
          all_goals try exact Option.noConfusion h
          rename_i h3 h4 h5 h6 h7 h8 rest2
          split at h
          all_goals try exact Option.noConfusion h
          rename_i b2 b3 b4 hhp2 hhp3 hhp4
          obtain ⟨hx3, hx4⟩ := hexPair_hex hhp2
          obtain ⟨hx5, hx6⟩ := hexPair_hex hhp3
          obtain ⟨hx7, hx8⟩ := hexPair_hex hhp4
          replace h := opt_of_ite_none h
          rw [Option.map_eq_some'] at h
          obtain ⟨d', hd', -⟩ := h
          rw [countPctXX_pct _ hx3 hx4, countCh_pct _ hx3 hx4,
            countPctXX_pct _ hx5 hx6, countCh_pct _ hx5 hx6,
            countPctXX_pct rest2 hx7 hx8, countCh_pct rest2 hx7 hx8,
            ih rest2 d' hd']
        · exact Option.noConfusion h
    · rename_i fuel c cs hnc heq
      have hf : fuel = f := by omega
      subst hf
      split at h
      · exact Option.noConfusion h
      · rename_i hc
        rw [Option.map_eq_some'] at h
        obtain ⟨d', hd', -⟩ := h
        rw [countPctXX_cons_ne hc, countCh_cons_ne hc cs, ih cs d' hd']

/-- C8: `detect` classifies an input as `url` only when its trim contains at
least two literal `%XX` escape sequences and `decodeURIComponent` both
succeeds and changes the string; and whenever the decode fails or leaves
the string unchanged (stray `%` characters make the decode fail), the
URL detector returns nothing and the input falls through. -/
theorem c8_url_encoded (s : List Char) :
    ((detect s).type = DetectedType.url →
      2 ≤ countPctXX (jsTrim s) ∧
      ∃ d, decodeURIComp (jsTrim s) = some d ∧ d ≠ jsTrim s) ∧
    ((¬ ∃ d, decodeURIComp (jsTrim s) = some d ∧ d ≠ jsTrim s) →
      detectUrlEncoded s = none) := by
  constructor
  · intro h
    have ht := detect_type_url h
    simp only [detectUrlEncoded] at ht
    split at ht
    next hpct =>
      split at ht
      next hcnt =>
        split at ht
        next d hdec =>
          split at ht
          next hne =>
            refine ⟨?_, d, hdec, hne⟩
            rw [decode_countPct ((jsTrim s).length + 1) (jsTrim s) d hdec]
            exact hcnt
          next => exact Option.noConfusion ht
        next => exact Option.noConfusion ht
      next => exact Option.noConfusion ht
    next => exact Option.noConfusion ht
  · intro hno
    simp only [detectUrlEncoded]
    split
    · split
      · split
        · rename_i d hdec
          split
          · rename_i hne
            exact absurd ⟨d, hdec, hne⟩ hno
          · rfl
        · rfl
      · rfl
    · rfl

theorem c8_url_encoded_witness :
    2 ≤ countPctXX (jsTrim ("a%41%42".data)) ∧
    ∃ d, decodeURIComp (jsTrim ("a%41%42".data)) = some d ∧
      d ≠ jsTrim ("a%41%42".data) :=
  (c8_url_encoded ("a%41%42".data)).1 (by decide)

theorem parseJwt_isExpired {now : Int} {token : List Char} {p : JwtPayload}
    (h : parseJwt now token = some p) :
    p.isExpired =
      if jsTruthy (jLookup p.payload ['e', 'x', 'p']) then
        some (match jClaimNum (jLookup p.payload ['e', 'x', 'p']) with
              | some e => decide (e * 1000 < now)
              | none => false)
      else none := by
  rw [parseJwt.eq_def] at h
  split at h
  next p0 p1 p2 heq =>
    split at h
    next header payload hh hp =>
      injection h with h'
      subst h'
      rfl
    next => exact Option.noConfusion h
  next => exact Option.noConfusion h

/-- C6 (amended): `parseJwt` returns `none` (never a partial result) unless
the trimmed token splits into exactly 3 dot-separated parts whose header and
payload base64url-decode and JSON-parse; on success, whenever the payload
carries a *truthy* `exp` claim (a nonzero number), `isExpired` is set and
equals `now > exp*1000`, so such a token with `exp` in the past has
`isExpired = true`. The claim's unqualified "whenever the payload carries an
exp claim" is refuted by `c6_parsejwt_exp_zero`: `exp: 0` is skipped by the
truthiness test, leaving `isExpired` unset. -/
theorem c6_parsejwt_exp (now : Int) (token : List Char) :
    (∀ p, parseJwt now token = some p →
      ∃ p0 p1 p2, splitOnCh '.' (jsTrim token) = [p0, p1, p2] ∧
        (atob (b64urlNorm p0)).bind (fun bs => jsonParse (bytesToChars bs)) =
          some p.header ∧
        (atob (b64urlNorm p1)).bind (fun bs => jsonParse (bytesToChars bs)) =
          some p.payload ∧ p.signature = p2) ∧
    (∀ p e, parseJwt now token = some p →
      jLookup p.payload ['e', 'x', 'p'] = some (J.jnum e) → e ≠ 0 →
      p.isExpired = some (decide (e * 1000 < now)) ∧
      (e * 1000 < now → p.isExpired = some true)) := by
  constructor
  · intro p h
    rw [parseJwt.eq_def] at h
    split at h
    next p0 p1 p2 heq =>
      split at h
      next header payload hh hp =>
        injection h with h'
        subst h'
        exact ⟨p0, p1, p2, heq, hh, hp, rfl⟩
      next => exact Option.noConfusion h
    next => exact Option.noConfusion h
  · intro p e h hlook hne
    have hexp := parseJwt_isExpired h
    rw [hlook] at hexp
    simp only [jsTruthy, jClaimNum] at hexp
    rw [if_pos (by simp [hne])] at hexp
    refine ⟨hexp, fun hlt => ?_⟩
    rw [hexp, decide_eq_true hlt]

/-- C6 refutation of the unamended claim: a token whose payload is
`\x7b"exp":0\x7d` has an `exp` claim lying in the past, yet `isExpired` is
left unset (`exp: 0` is falsy, so the source skips the expiry computation). -/
theorem c6_parsejwt_exp_zero :
    ∃ p, parseJwt 1700000000000 ("e30.eyJleHAiOjB9.s".data) = some p ∧
      jLookup p.payload ['e', 'x', 'p'] = some (J.jnum 0) ∧
      (0 : Int) * 1000 < 1700000000000 ∧
      p.isExpired = none := by
  refine ⟨_, rfl, by rfl, by decide, by rfl⟩

theorem c6_parsejwt_exp_witness :
    ∃ p, parseJwt 1700000000000 ("e30.eyJleHAiOjF9.s".data) = some p ∧
      p.isExpired = some true := by
  refine ⟨_, rfl, ?_⟩
  exact ((c6_parsejwt_exp 1700000000000 ("e30.eyJleHAiOjF9.s".data)).2
    _ 1 rfl (by rfl) (by decide)).2 (by decide)

theorem rgbToHsl_grey (n : Int) (a : Option Frac) :
    rgbToHsl ⟨n, n, n, a⟩ =
      ⟨0, 0, jsRoundF (fmul (fdivF (fadd ⟨n, 255⟩ ⟨n, 255⟩) (fof 2)) (fof 100)), a⟩ := by
  have hx : fltB (⟨n, 255⟩ : Frac) ⟨n, 255⟩ = false := by
    simp [fltB]
  have he : feqB (⟨n, 255⟩ : Frac) ⟨n, 255⟩ = true := by
    simp [feqB]
  simp only [rgbToHsl, fmax, fmin, hx, Bool.false_eq_true, if_false, he, if_true]
  rw [show jsRoundF (fof 0) = 0 from by decide]

theorem hslToRgb_grey0 (L : Int) (a : Option Frac) :
    hslToRgb ⟨0, 0, L, a⟩ =
      ⟨jsRoundF (fmul ⟨L, 100⟩ (fof 255)), jsRoundF (fmul ⟨L, 100⟩ (fof 255)),
       jsRoundF (fmul ⟨L, 100⟩ (fof 255)), a⟩ := by
  have he : feqB (⟨(0 : Int), 100⟩ : Frac) (fof 0) = true := by
    simp [feqB, fof]
  simp only [hslToRgb, he, if_true]

/-- The grey round-trip channel value, `hslToRgb (rgbToHsl grey n)` with no
alpha. -/
def greyRT (n : Int) : Int := (hslToRgb (rgbToHsl ⟨n, n, n, none⟩)).r

theorem grey_alpha (n : Int) (a : Option Frac) :
    hslToRgb (rgbToHsl ⟨n, n, n, a⟩) = ⟨greyRT n, greyRT n, greyRT n, a⟩ := by
  rw [rgbToHsl_grey, hslToRgb_grey0]
  have hg : greyRT n =
      jsRoundF (fmul ⟨jsRoundF (fmul (fdivF (fadd ⟨n, 255⟩ ⟨n, 255⟩) (fof 2))
        (fof 100)), 100⟩ (fof 255)) := by
    rw [greyRT, rgbToHsl_grey, hslToRgb_grey0]
  rw [hg]

set_option maxRecDepth 100000 in
theorem greyRT_bound : ∀ n : Nat, n < 256 → (greyRT (n : Int) - (n : Int)).natAbs ≤ 1 := by
  decide

/-- C7 (amended): the HSL/RGB round trip reproduces every *grey* triple
(equal channels, any alpha) within the claimed ±1 per channel, and passes
alpha through unchanged. The claim's "every RGB triple" is refuted by
`c7_roundtrip_cex`: rgb(100,100,101) comes back as rgb(99,99,99), an error
of 2 on the blue channel. -/
theorem c7_hsl_rgb_roundtrip (n : Nat) (a : Option Frac) (h : n < 256) :
    ((hslToRgb (rgbToHsl ⟨(n : Int), (n : Int), (n : Int), a⟩)).r -
        (n : Int)).natAbs ≤ 1 ∧
    (hslToRgb (rgbToHsl ⟨(n : Int), (n : Int), (n : Int), a⟩)).g =
      (hslToRgb (rgbToHsl ⟨(n : Int), (n : Int), (n : Int), a⟩)).r ∧
    (hslToRgb (rgbToHsl ⟨(n : Int), (n : Int), (n : Int), a⟩)).b =
      (hslToRgb (rgbToHsl ⟨(n : Int), (n : Int), (n : Int), a⟩)).r ∧
    (hslToRgb (rgbToHsl ⟨(n : Int), (n : Int), (n : Int), a⟩)).a = a := by
  rw [grey_alpha]
  exact ⟨greyRT_bound n h, rfl, rfl, rfl⟩

/-- C7 refutation of the unamended claim: an in-range RGB triple whose round
trip misses a channel by 2. -/
theorem c7_roundtrip_cex :
    hslToRgb (rgbToHsl ⟨100, 100, 101, some (fof 1)⟩) =
      ⟨99, 99, 99, some (fof 1)⟩ ∧
    1 < ((101 : Int) - 99).natAbs := by
  constructor <;> decide

theorem c7_hsl_rgb_roundtrip_witness :
    (100 : Nat) < 256 ∧
    ((hslToRgb (rgbToHsl ⟨((100 : Nat) : Int), ((100 : Nat) : Int),
        ((100 : Nat) : Int), none⟩)).r - ((100 : Nat) : Int)).natAbs ≤ 1 :=
  ⟨by decide, (c7_hsl_rgb_roundtrip 100 none (by decide)).1⟩

theorem countRunsAux_not_p {p : Char → Bool} :
    ∀ {l : List Char}, (∀ c ∈ l, p c = false) → ∀ b, countRunsAux p b l = 0 := by
  intro l
  induction l with
  | nil => intro _ b; rfl
  | cons c cs ih =>
    intro h b
    have hc : p c = false := h c (List.mem_cons_self c cs)
    simp only [countRunsAux, hc, Bool.false_eq_true, if_false]
    exact ih (fun x hx => h x (List.mem_cons_of_mem c hx)) false

theorem countRunsAux_all_p {p : Char → Bool} :
    ∀ {l : List Char}, (∀ c ∈ l, p c = true) →
      countRunsAux p true l = 0 ∧ (l ≠ [] → countRunsAux p false l = 1) := by
  intro l
  induction l with
  | nil => exact fun _ => ⟨rfl, fun h => absurd rfl h⟩
  | cons c cs ih =>
    intro h
    have hc : p c = true := h c (List.mem_cons_self c cs)
    have ih' := ih (fun x hx => h x (List.mem_cons_of_mem c hx))
    constructor
    · simp only [countRunsAux, hc, if_true]
      simpa using ih'.1
    · intro _
      simp only [countRunsAux, hc, if_true, if_false]
      rw [ih'.1]
      simp

theorem countRuns_all_p {p : Char → Bool} {l : List Char}
    (h : ∀ c ∈ l, p c = true) (hne : l ≠ []) : countRuns p l = 1 :=
  (countRunsAux_all_p h).2 hne

theorem countRunsAux_drop_notp {p : Char → Bool} :
    ∀ (u v : List Char), (∀ c ∈ u, p c = false) →
      countRunsAux p false (u ++ v) = countRunsAux p false v := by
  intro u
  induction u with
  | nil => intro v _; rfl
  | cons c cs ih =>
    intro v h
    have hc : p c = false := h c (List.mem_cons_self c cs)
    simp only [List.cons_append, countRunsAux, hc, Bool.false_eq_true, if_false]
    exact ih v (fun x hx => h x (List.mem_cons_of_mem c hx))

theorem countRunsAux_suffix_notp {p : Char → Bool} :
    ∀ (l u : List Char), (∀ c ∈ u, p c = false) → ∀ b,
      countRunsAux p b (l ++ u) = countRunsAux p b l := by
  intro l
  induction l with
  | nil => intro u h b; rw [List.nil_append]; exact countRunsAux_not_p h b
  | cons c cs ih =>
    intro u h b
    simp only [List.cons_append, countRunsAux, List.append_eq]
    by_cases hc : p c = true
    · simp only [hc, if_true]
      rw [ih u h true]
    · rw [Bool.not_eq_true] at hc
      simp only [hc, Bool.false_eq_true, if_false]
      rw [ih u h false]

theorem countRunsAux_run_head {p : Char → Bool} :
    ∀ (w r : List Char), (∀ c ∈ w, p c = true) → w ≠ [] →
      countRunsAux p false (w ++ r) = 1 + countRunsAux p true r ∧
      countRunsAux p true (w ++ r) = countRunsAux p true r := by
  intro w
  induction w with
  | nil => intro r _ hne; exact absurd rfl hne
  | cons c cs ih =>
    intro r h _
    have hc : p c = true := h c (List.mem_cons_self c cs)
    have hcs : ∀ x ∈ cs, p x = true := fun x hx => h x (List.mem_cons_of_mem c hx)
    by_cases hcse : cs = []
    · subst hcse
      simp only [List.cons_append, List.nil_append, countRunsAux, hc, if_true]
      constructor <;> simp
    · have ih' := ih r hcs hcse
      simp only [List.cons_append, countRunsAux, hc, if_true, List.append_eq]
      constructor
      · rw [ih'.2]
        simp
      · rw [ih'.2]
        simp

theorem countRunsAux_true_head {p : Char → Bool} :
    ∀ {r : List Char}, (∀ c, r.head? = some c → p c = false) →
      countRunsAux p true r = countRunsAux p false r := by
  intro r h
  match r with
  | [] => rfl
  | c :: cs =>
    have hc : p c = false := h c rfl
    simp only [countRunsAux, hc, Bool.false_eq_true, if_false]

theorem dropWhile_head_false {p : Char → Bool} :
    ∀ (l : List Char) {c : Char} {cs : List Char},
      l.dropWhile p = c :: cs → p c = false := by
  intro l
  induction l with
  | nil => intro c cs h; exact List.noConfusion h
  | cons a as ih =>
    intro c cs h
    rw [List.dropWhile_cons] at h
    split at h
    · exact ih h
    · next hpa =>
        injection h with h1 _
        subst h1
        rw [Bool.not_eq_true] at hpa
        exact hpa

theorem jsTrim_split (s : List Char) :
    s.dropWhile isJsWs =
      jsTrim s ++ ((s.dropWhile isJsWs).reverse.takeWhile isJsWs).reverse := by
  conv_lhs => rw [← List.reverse_reverse (s.dropWhile isJsWs)]
  conv_lhs =>
    rw [← List.takeWhile_append_dropWhile isJsWs (s.dropWhile isJsWs).reverse]
  rw [List.reverse_append]
  rfl

theorem jsTrim_decomp (s : List Char) :
    ∃ pre suf, s = pre ++ (jsTrim s ++ suf) ∧
      (∀ c ∈ pre, isJsWs c = true) ∧ (∀ c ∈ suf, isJsWs c = true) := by
  refine ⟨s.takeWhile isJsWs,
    ((s.dropWhile isJsWs).reverse.takeWhile isJsWs).reverse, ?_, ?_, ?_⟩
  · conv_lhs =>
      rw [← List.takeWhile_append_dropWhile isJsWs s]
    conv_lhs => rw [jsTrim_split s]
  · intro c hc
    exact List.mem_takeWhile_imp hc
  · intro c hc
    rw [List.mem_reverse] at hc
    exact List.mem_takeWhile_imp hc

theorem jsTrim_head_ws {s : List Char} {c : Char}
    (h : (jsTrim s).head? = some c) : isJsWs c = false := by
  have hsplit := jsTrim_split s
  obtain ⟨t, ht⟩ : ∃ t, jsTrim s = c :: t := by
    cases he : jsTrim s with
    | nil => rw [he] at h; exact Option.noConfusion h
    | cons a b =>
      rw [he] at h
      injection h with h1
      exact ⟨b, by rw [h1]⟩
  rw [ht, List.cons_append] at hsplit
  exact dropWhile_head_false _ hsplit

theorem jsTrim_last_ws {s : List Char} {c : Char}
    (h : (jsTrim s).getLast? = some c) : isJsWs c = false := by
  have h2 : ((s.dropWhile isJsWs).reverse.dropWhile isJsWs).head? = some c := by
    rw [← List.getLast?_reverse]
    exact h
  obtain ⟨t, ht⟩ : ∃ t, (s.dropWhile isJsWs).reverse.dropWhile isJsWs = c :: t := by
    cases he : (s.dropWhile isJsWs).reverse.dropWhile isJsWs with
    | nil => rw [he] at h2; exact Option.noConfusion h2
    | cons a b =>
      rw [he] at h2
      injection h2 with h1
      exact ⟨b, by rw [h1]⟩
  exact dropWhile_head_false _ ht

theorem countRuns_trim (s : List Char) :
    countRuns (fun c => !isJsWs c) s = countRuns (fun c => !isJsWs c) (jsTrim s) := by
  obtain ⟨pre, suf, hdecomp, hpre, hsuf⟩ := jsTrim_decomp s
  conv_lhs => rw [hdecomp]
  rw [countRuns, countRunsAux_drop_notp pre _
    (fun c hc => by rw [hpre c hc]; rfl)]
  rw [countRunsAux_suffix_notp (jsTrim s) suf
    (fun c hc => by rw [hsuf c hc]; rfl) false]
  rfl

theorem splitWsPlusF_len : ∀ (f : Nat) (l : List Char), l.length < f → l ≠ [] →
    (∀ c, l.head? = some c → isJsWs c = false) →
    (∀ c, l.getLast? = some c → isJsWs c = false) →
    (splitWsPlusF f l).length = countRuns (fun c => !isJsWs c) l := by
  intro f
  induction f with
  | zero => intro l hlen; exact absurd hlen (by omega)
  | succ f ih =>
    intro l hlen hne hhead hlast
    obtain ⟨c0, cs0, hl⟩ : ∃ c0 cs0, l = c0 :: cs0 := by
      cases l
      · exact absurd rfl hne
      · exact ⟨_, _, rfl⟩
    have hc0 : isJsWs c0 = false := hhead c0 (by rw [hl]; rfl)
    simp only [splitWsPlusF]
    split
    next _r heq =>
      simp only [List.length_cons, List.length_nil]
      rw [List.dropWhile_eq_nil_iff] at heq
      exact (countRuns_all_p (fun c hc => heq c hc) hne).symm
    next _r hner =>
      obtain ⟨r0, rs, heq⟩ : ∃ r0 rs,
          (l.dropWhile fun c => !isJsWs c) = r0 :: rs := by
        cases he : (l.dropWhile fun c => !isJsWs c) with
        | nil => exact absurd he hner
        | cons a b => exact ⟨a, b, rfl⟩
      simp only [List.length_cons]
      have hw : ∀ c ∈ l.takeWhile (fun c => !isJsWs c), (!isJsWs c) = true := by
        intro c hc
        have h2 := List.mem_takeWhile_imp hc
        exact h2
      have hwne : l.takeWhile (fun c => !isJsWs c) ≠ [] := by
        rw [hl, List.takeWhile_cons_of_pos (by rw [hc0]; rfl)]
        exact List.cons_ne_nil _ _
      have hr0 : isJsWs r0 = true := by
        have := dropWhile_head_false _ heq
        simpa using this
      have hlne : (l.dropWhile fun c => !isJsWs c) ≠ [] := by
        rw [heq]; exact List.cons_ne_nil _ _
      have hlast_l : ∃ cL, l.getLast? = some cL := by
        cases hgl : l.getLast? with
        | none => rw [List.getLast?_eq_none_iff] at hgl; exact absurd hgl hne
        | some a => exact ⟨a, rfl⟩
      obtain ⟨cL, hcL⟩ := hlast_l
      have hcLw : isJsWs cL = false := hlast cL hcL
      have hlast_r : (l.dropWhile fun c => !isJsWs c).getLast? = some cL := by
        rw [← List.getLast?_append_of_ne_nil (l.takeWhile fun c => !isJsWs c) hlne,
          List.takeWhile_append_dropWhile]
        exact hcL
      have hl2ne : ((l.dropWhile fun c => !isJsWs c).dropWhile isJsWs) ≠ [] := by
        intro hnil
        rw [List.dropWhile_eq_nil_iff] at hnil
        have hmem : cL ∈ (l.dropWhile fun c => !isJsWs c) :=
          List.mem_of_mem_getLast? hlast_r
        rw [hnil cL hmem] at hcLw
        exact Bool.noConfusion hcLw
      have hlast_l2 :
          ((l.dropWhile fun c => !isJsWs c).dropWhile isJsWs).getLast? = some cL := by
        rw [← List.getLast?_append_of_ne_nil
          ((l.dropWhile fun c => !isJsWs c).takeWhile isJsWs) hl2ne,
          List.takeWhile_append_dropWhile]
        exact hlast_r
      have hlen2 : ((l.dropWhile fun c => !isJsWs c).dropWhile isJsWs).length < f := by
        have h1 : l.length = (l.takeWhile fun c => !isJsWs c).length +
            (l.dropWhile fun c => !isJsWs c).length := by
          conv_lhs =>
            rw [show l = (l.takeWhile fun c => !isJsWs c) ++
              (l.dropWhile fun c => !isJsWs c)
              from (List.takeWhile_append_dropWhile _ _).symm]
          rw [List.length_append]
        have h2 : ((l.dropWhile fun c => !isJsWs c).dropWhile isJsWs).length ≤
            (l.dropWhile fun c => !isJsWs c).length := length_dropWhile_le _ _
        have h3 : 0 < (l.takeWhile fun c => !isJsWs c).length :=
          List.length_pos.2 hwne
        omega
      have hhead2 : ∀ c,
          ((l.dropWhile fun c => !isJsWs c).dropWhile isJsWs).head? = some c →
            isJsWs c = false := by
        intro c hc
        obtain ⟨t, hteq⟩ : ∃ t,
            (l.dropWhile fun c => !isJsWs c).dropWhile isJsWs = c :: t := by
          cases he : (l.dropWhile fun c => !isJsWs c).dropWhile isJsWs with
          | nil => rw [he] at hc; exact Option.noConfusion hc
          | cons a b =>
            rw [he] at hc
            injection hc with h1
            exact ⟨b, by rw [h1]⟩
        exact dropWhile_head_false _ hteq
      have hlast2 : ∀ c,
          ((l.dropWhile fun c => !isJsWs c).dropWhile isJsWs).getLast? = some c →
            isJsWs c = false := by
        intro c hc
        rw [hlast_l2] at hc
        injection hc with h1
        rw [← h1]
        exact hcLw
      rw [ih _ hlen2 hl2ne hhead2 hlast2]
      have hcount : countRuns (fun c => !isJsWs c) l =
          1 + countRuns (fun c => !isJsWs c)
            ((l.dropWhile fun c => !isJsWs c).dropWhile isJsWs) := by
        conv_lhs =>
          rw [countRuns, show l = (l.takeWhile fun c => !isJsWs c) ++
            (l.dropWhile fun c => !isJsWs c)
            from (List.takeWhile_append_dropWhile _ _).symm]
        rw [(countRunsAux_run_head _ _ hw hwne).1]
        rw [countRunsAux_true_head (by
          intro c hc
          rw [heq] at hc
          injection hc with h1
          rw [← h1]
          simp [hr0])]
        conv_lhs =>
          rw [show (l.dropWhile fun c => !isJsWs c) =
            ((l.dropWhile fun c => !isJsWs c).takeWhile isJsWs) ++
              ((l.dropWhile fun c => !isJsWs c).dropWhile isJsWs)
            from (List.takeWhile_append_dropWhile _ _).symm]
        rw [countRunsAux_drop_notp _ _ (fun c hc => by
          have h2 := List.mem_takeWhile_imp hc
          rw [h2]; rfl)]
        rfl
      rw [hcount]
      omega

theorem countCh_append (c : Char) (a b : List Char) :
    countCh c (a ++ b) = countCh c a + countCh c b := by
  simp [countCh, List.filter_append]

theorem char_is_nl {c : Char} (h : c.toNat = 10) : c = '\n' := by
  have h2 := charOfNat_toNat c (by omega)
  rw [h] at h2
  rw [← h2]

theorem splitLinesF_len : ∀ (f : Nat) (l : List Char), l.length < f →
    (splitLinesF f l).length = countCh '\n' l + 1 := by
  intro f
  induction f with
  | zero => intro l h; exact absurd h (by omega)
  | succ f ih =>
    intro l hlen
    simp only [splitLinesF]
    split
    next _r heq =>
      simp only [List.length_cons, List.length_nil]
      rw [List.dropWhile_eq_nil_iff] at heq
      have hc0 : countCh '\n' l = 0 := by
        rw [countCh, List.length_eq_zero, List.filter_eq_nil_iff]
        intro c hc hceq
        have h2 := heq c hc
        rw [Bool.not_eq_true', decide_eq_false_iff_not] at h2
        rw [decide_eq_true_eq] at hceq
        exact h2 (by rw [hceq]; rfl)
      omega
    next c1 rest heq =>
      simp only [List.length_cons]
      have hc1 : c1 = '\n' := by
        have h2 := dropWhile_head_false _ heq
        rw [Bool.not_eq_false', decide_eq_true_eq] at h2
        exact char_is_nl h2
      have hwcnt : countCh '\n' (l.takeWhile fun c => !(decide (c.toNat = 10))) = 0 := by
        rw [countCh, List.length_eq_zero, List.filter_eq_nil_iff]
        intro c hc hceq
        have h2 := List.mem_takeWhile_imp hc
        rw [Bool.not_eq_true', decide_eq_false_iff_not] at h2
        rw [decide_eq_true_eq] at hceq
        exact h2 (by rw [hceq]; rfl)
      have hlcnt : countCh '\n' l = countCh '\n' rest + 1 := by
        conv_lhs =>
          rw [← List.takeWhile_append_dropWhile (fun c => !(decide (c.toNat = 10))) l]
        rw [countCh_append, heq, hc1, countCh_cons_self, hwcnt]
        omega
      have hrlen : rest.length < f := by
        have h1 : l.length =
            (l.takeWhile fun c => !(decide (c.toNat = 10))).length +
              (l.dropWhile fun c => !(decide (c.toNat = 10))).length := by
          conv_lhs =>
            rw [← List.takeWhile_append_dropWhile (fun c => !(decide (c.toNat = 10))) l]
          rw [List.length_append]
        rw [heq] at h1
        simp only [List.length_cons] at h1
        omega
      rw [ih rest hrlen, hlcnt]

/-- C9 (amended): for every input, `characters` is the string length,
`charactersNoSpaces` the length with all whitespace removed, `words` the
number of whitespace-separated runs (0 when blank), `lines` one more than
the number of line feeds (each `\r\n` or `\n` separator contains exactly
one LF), and `sentences` the number of `[.!?]+` runs — or, when there are
none, 1 if the *trimmed* input is non-empty and 0 otherwise. The claim's
fallback "1 for any non-empty input containing none" is refuted by
`c9_textstats_blank`: whitespace-only input is non-empty yet yields 0
sentences. -/
theorem c9_textstats (s : List Char) :
    (textStats s).characters = s.length ∧
    (textStats s).charactersNoSpaces = (s.filter fun c => !isJsWs c).length ∧
    (textStats s).words = countRuns (fun c => !isJsWs c) s ∧
    (textStats s).lines = countCh '\n' s + 1 ∧
    (countRuns isSentCh s ≠ 0 → (textStats s).sentences = countRuns isSentCh s) ∧
    (countRuns isSentCh s = 0 → jsTrim s ≠ [] → (textStats s).sentences = 1) ∧
    (countRuns isSentCh s = 0 → jsTrim s = [] → (textStats s).sentences = 0) := by
  refine ⟨rfl, rfl, ?_, ?_, ?_, ?_, ?_⟩
  · show (if !(jsTrim s).isEmpty then (splitWsPlus (jsTrim s)).length else 0) = _
    by_cases he : (jsTrim s).isEmpty = true
    · rw [he]
      rw [List.isEmpty_iff] at he
      rw [countRuns_trim, he]
      rfl
    · rw [Bool.not_eq_true] at he
      rw [he]
      simp only [Bool.not_false, if_true]
      have hne : jsTrim s ≠ [] := by
        intro hnil
        rw [hnil] at he
        simp at he
      rw [splitWsPlus,
        splitWsPlusF_len _ _ (by omega) hne (fun c hc => jsTrim_head_ws hc)
          (fun c hc => jsTrim_last_ws hc)]
      exact (countRuns_trim s).symm
  · show (splitLines s).length = _
    rw [splitLines]
    exact splitLinesF_len _ s (by omega)
  · intro h
    show (if countRuns isSentCh s ≠ 0 then countRuns isSentCh s
      else (if !(jsTrim s).isEmpty then 1 else 0)) = _
    rw [if_pos h]
  · intro h hne
    show (if countRuns isSentCh s ≠ 0 then countRuns isSentCh s
      else (if !(jsTrim s).isEmpty then 1 else 0)) = _
    rw [if_neg (fun hh => hh h)]
    have hf : (jsTrim s).isEmpty = false := by
      rcases hjt : jsTrim s with _ | ⟨a, b⟩
      · exact absurd hjt hne
      · rfl
    rw [hf]
    rfl
  · intro h he
    show (if countRuns isSentCh s ≠ 0 then countRuns isSentCh s
      else (if !(jsTrim s).isEmpty then 1 else 0)) = _
    rw [if_neg (fun hh => hh h), he]
    rfl

/-- C9 refutation of the unamended fallback: a whitespace-only input is
non-empty and contains no `[.!?]+` run, yet its sentence count is 0, not
the claimed 1 (the source tests the trimmed string, not the raw one). -/
theorem c9_textstats_blank :
    ("   ".data ≠ ([] : List Char)) ∧ countRuns isSentCh ("   ".data) = 0 ∧
    (textStats ("   ".data)).sentences = 0 :=
  ⟨by decide, by decide, by decide⟩

theorem c9_textstats_witness :
    countRuns isSentCh ("a.".data) ≠ 0 ∧
    (textStats ("a.".data)).sentences = countRuns isSentCh ("a.".data) ∧
    (textStats ("a.".data)).words = countRuns (fun c => !isJsWs c) ("a.".data) :=
  ⟨by decide, (c9_textstats ("a.".data)).2.2.2.2.1 (by decide),
    (c9_textstats ("a.".data)).2.2.1⟩

theorem rgbCaptures_shape {t : List Char} {x : Nat × Nat × Nat × Option (List Char)}
    (h : rgbCaptures t = some x) :
    ∃ c1 c2 c3 r, t = c1 :: c2 :: c3 :: r ∧ lowerCh c1 = 'r' := by
  rw [rgbCaptures.eq_def] at h
  split at h
  next _t c1 c2 c3 rr =>
    split at h
    next hcond => exact ⟨c1, c2, c3, rr, rfl, hcond.1⟩
    next => exact Option.noConfusion h
  next => exact Option.noConfusion h

theorem hslCaptures_shape {t : List Char} {x : Nat × Nat × Nat × Option (List Char)}
    (h : hslCaptures t = some x) :
    ∃ c1 c2 c3 r, t = c1 :: c2 :: c3 :: r ∧ lowerCh c1 = 'h' := by
  rw [hslCaptures.eq_def] at h
  split at h
  next _t c1 c2 c3 rr =>
    split at h
    next hcond => exact ⟨c1, c2, c3, rr, rfl, hcond.1⟩
    next => exact Option.noConfusion h
  next => exact Option.noConfusion h

theorem hexLooseMatch_none_head {c : Char} {cs : List Char}
    (hc : lowerCh c ≠ '#') : hexLooseMatch (c :: cs) = none := by
  simp only [hexLooseMatch]
  rw [if_neg]
  intro hcon
  apply hc
  rw [hcon.1]
  rfl

theorem parseColor_some_of_detectColor {s : List Char} {r : DetectionResult}
    (h : detectColor s = some r) : (parseColor s).isSome = true := by
  simp only [detectColor] at h
  split at h
  next hhex =>
    clear h
    rcases ht : jsTrim s with _ | ⟨c, rest⟩
    · rw [ht] at hhex
      exact Bool.noConfusion hhex
    rw [ht, hexColorTest] at hhex
    simp only [Bool.and_eq_true, Bool.or_eq_true, decide_eq_true_eq, beq_iff_eq] at hhex
    obtain ⟨⟨hc, hall⟩, hlen⟩ := hhex
    have hlm : hexLooseMatch (jsTrim s) = some rest := by
      rw [ht]
      simp only [hexLooseMatch]
      rw [if_pos]
      refine ⟨hc, ?_⟩
      rw [Bool.and_eq_true, Bool.and_eq_true]
      refine ⟨hall, ?_, ?_⟩ <;> simp only [decide_eq_true_eq] <;> omega
    rcases hlen with (h3 | h6) | h8
    · obtain ⟨d1, d2, d3, hrest⟩ := List.length_eq_three.1 h3
      rw [hrest] at hlm
      simp only [parseColor, hlm]
      rfl
    · simp only [parseColor, hlm]
      have e3 : (rest.length == 3) = false := by rw [h6]; rfl
      have e6 : (rest.length == 6) = true := by rw [h6]; rfl
      rw [e3, e6]
      rfl
    · simp only [parseColor, hlm]
      have e3 : (rest.length == 3) = false := by rw [h8]; rfl
      have e6 : (rest.length == 6) = false := by rw [h8]; rfl
      have e8 : (rest.length == 8) = true := by rw [h8]; rfl
      rw [e3, e6, e8]
      rfl
  next hhex =>
    split at h
    next hrgb =>
      clear h
      obtain ⟨x, hcap⟩ := Option.isSome_iff_exists.1 hrgb
      obtain ⟨c1, c2, c3, rr, heq, hlow⟩ := rgbCaptures_shape hcap
      have hlm : hexLooseMatch (jsTrim s) = none := by
        rw [heq]
        apply hexLooseMatch_none_head
        rw [hlow]
        decide
      simp only [parseColor, hlm, hcap]
      rfl
    next hrgb =>
      split at h
      next hhsl =>
        clear h
        have hrgbn : rgbCaptures (jsTrim s) = none := by
          rw [← Option.not_isSome_iff_eq_none]
          intro hs
          exact hrgb (by simpa using hs)
        obtain ⟨x, hcap⟩ := Option.isSome_iff_exists.1 hhsl
        obtain ⟨c1, c2, c3, rr, heq, hlow⟩ := hslCaptures_shape hcap
        have hlm : hexLooseMatch (jsTrim s) = none := by
          rw [heq]
          apply hexLooseMatch_none_head
          rw [hlow]
          decide
        simp only [parseColor, hlm, hrgbn, hcap]
        rfl
      next => exact Option.noConfusion h

theorem colorToFormats_isSome {s : List Char} (h : (parseColor s).isSome = true) :
    (colorToFormats s).isSome = true := by
  simp only [colorToFormats]
  split
  next heq =>
    rw [heq] at h
    exact Bool.noConfusion h
  next rgb heq => rfl

/-- C10: interface safety — whenever `detect` classifies an input as
`color`, `colorToFormats` returns a bundle (`parseColor`'s `null` branch is
unreachable once the detector's hex(3/6/8), rgb()/rgba() or hsl()/hsla()
pattern has matched, out-of-range channel values included). -/
theorem c10_color_interface (s : List Char)
    (h : (detect s).type = DetectedType.color) :
    (colorToFormats s).isSome = true :=
  colorToFormats_isSome (parseColor_some_of_detectColor (detect_type_color h))

theorem c10_color_interface_witness :
    (detect ("#fff".data)).type = DetectedType.color ∧
    (colorToFormats ("#fff".data)).isSome = true :=
  ⟨by decide, c10_color_interface ("#fff".data) (by decide)⟩
